import Mathlib

/-!
# FSUIPC-Java native bridge: request records and the request registry

A shallow embedding of `FSUIPCDataRequest.cpp`, `FSUIPCDataRequestManager.cpp` and the
JNI entry points of `fsuipc_java64.cpp`.

* The Java runtime (heap arrays, global references, native element buffers) is an explicit
  value of type `Runtime`; the JNI functions the bridge calls are functions on it.  A JNI call
  outside its contract (null or dangling handle) has no defined result: `none`.
* The FSUIPC user library is external.  Every call into it is given its reply as an argument:
  the returned `BOOL`, the `DWORD` it stores through `pResult`, and for `FSUIPC_Process` the
  bytes it writes into each native buffer.
* The request manager stores pointers to heap records, each pointer held once; it is embedded
  as the list of the records themselves.
-/

set_option linter.unusedVariables false

namespace FSUIPC

/-! ## The Java runtime as seen through JNI -/

/-- A Java `byte`. -/
abbrev jbyte := Int

/-- The invocation interface `JavaVM*`. All the bridge asks of it is `GetEnv`, whose status
(`0` is `JNI_OK`) is a property of the virtual machine: every entry point runs on a thread the
machine itself attached. -/
structure JavaVM where
  getEnvStatus : Int
deriving DecidableEq, Repr

/-- The status `m_oJavaVM->GetEnv((void**)&env, JNI_VERSION_1_6)` returns. -/
def JavaVM.GetEnv (vm : JavaVM) : Int := vm.getEnvStatus

/-- A non-null `jobject`: a local reference (named by the object it refers to) or a global
reference (named by its handle). -/
inductive jobject where
  | localRef (obj : Nat)
  | globalRef (handle : Nat)
deriving DecidableEq, Repr

/-- The part of the Java runtime the bridge can observe or change.
`arrays` gives the contents of every byte array object, `globalRefs` the live global
references (handle, object), `elems` the live native element buffers handed out by
`GetByteArrayElements` (address, contents). -/
structure Runtime where
  arrays : Nat → List jbyte
  globalRefs : List (Nat × Nat)
  elems : List (Nat × List jbyte)

/-- First binding of key `k` in an association list. -/
def assoc {β : Type} (k : Nat) : List (Nat × β) → Option β
  | [] => none
  | e :: t => if e.1 = k then some e.2 else assoc k t

/-- Remove every binding of key `k`. -/
def unbind {β : Type} (k : Nat) (l : List (Nat × β)) : List (Nat × β) :=
  l.filter fun e => decide (e.1 ≠ k)

/-- A handle different from every live one (and from zero, the null handle). -/
def freshHandle (live : List Nat) : Nat := live.foldr max 0 + 1

namespace Runtime

/-- The object a reference denotes; a deleted global reference denotes nothing. -/
def resolve (rt : Runtime) : jobject → Option Nat
  | .localRef obj => some obj
  | .globalRef g => assoc g rt.globalRefs

/-- JNI `NewGlobalRef` on a valid reference: a fresh live global reference to the same
object. (The out-of-memory return `NULL`, which the bridge does not test for, is not modelled.) -/
def NewGlobalRef (rt : Runtime) (obj : jobject) : Option (Nat × Runtime) :=
  match rt.resolve obj with
  | none => none
  | some o =>
    let g := freshHandle (rt.globalRefs.map Prod.fst)
    some (g, { rt with globalRefs := (g, o) :: rt.globalRefs })

/-- JNI `DeleteGlobalRef`: defined on a live global reference only. -/
def DeleteGlobalRef (rt : Runtime) (g : Nat) : Option Runtime :=
  match assoc g rt.globalRefs with
  | none => none
  | some _ => some { rt with globalRefs := unbind g rt.globalRefs }

/-- JNI `GetByteArrayElements(array, 0)`: when the runtime grants the request, a fresh native
buffer holding a copy of the array contents, else the null pointer. -/
def GetByteArrayElements (rt : Runtime) (array : jobject) (granted : Bool) :
    Option (Option Nat × Runtime) :=
  match rt.resolve array with
  | none => none
  | some o =>
    if granted then
      let p := freshHandle (rt.elems.map Prod.fst)
      some (some p, { rt with elems := (p, rt.arrays o) :: rt.elems })
    else some (none, rt)

/-- JNI `ReleaseByteArrayElements(array, elems, 0)`: copy the buffer back into the array and
free the buffer. Defined for a valid array reference and a live buffer. -/
def ReleaseByteArrayElements (rt : Runtime) (array : jobject) (elems : Nat) : Option Runtime :=
  match rt.resolve array, assoc elems rt.elems with
  | some o, some buf =>
    some { rt with arrays := Function.update rt.arrays o buf, elems := unbind elems rt.elems }
  | _, _ => none

end Runtime

/-! ## The FSUIPC user library (external) -/

/-- What a call into the FSUIPC library hands back: its `BOOL` return value and the `DWORD`
it stores through `pResult`. -/
structure LibReply where
  ret : Int
  result : Nat

/-- Bytes `new` written at the start of buffer `buf`, clipped to the buffer. -/
def writeInto (buf new : List jbyte) : List jbyte :=
  (new ++ buf.drop new.length).take buf.length

/-- The memory effect of `FSUIPC_Process`: for the native buffer at address `p` holding `buf`
the library writes the bytes `writes p buf` into it. -/
def processWrites (writes : Nat → List jbyte → List jbyte) (rt : Runtime) : Runtime :=
  { rt with elems := rt.elems.map fun e => (e.1, writeInto e.2 (writes e.1 e.2)) }

/-! ## FSUIPCDataRequest -/

/-- The fields of class `FSUIPCDataRequest`; `none` is the null pointer. -/
structure FSUIPCDataRequest where
  m_dwOffset : Nat
  m_dwSize : Nat
  m_cData : Option Nat
  m_oData : Option Nat
  m_oJavaVM : Option JavaVM
deriving DecidableEq, Repr

namespace FSUIPCDataRequest

/-- Constructor `FSUIPCDataRequest(JavaVM* oJavaVM)`. -/
def mk_ (oJavaVM : Option JavaVM) : FSUIPCDataRequest :=
  { m_dwOffset := 0, m_dwSize := 0, m_cData := none, m_oData := none, m_oJavaVM := oJavaVM }

/-- Default constructor `FSUIPCDataRequest()`. -/
def mk0 : FSUIPCDataRequest :=
  { m_dwOffset := 0, m_dwSize := 0, m_cData := none, m_oData := none, m_oJavaVM := none }

def getOffset (r : FSUIPCDataRequest) : Nat := r.m_dwOffset
def getSize (r : FSUIPCDataRequest) : Nat := r.m_dwSize
def getCData (r : FSUIPCDataRequest) : Option Nat := r.m_cData
def setOffset (r : FSUIPCDataRequest) (dwOffset : Nat) : FSUIPCDataRequest :=
  { r with m_dwOffset := dwOffset % 2 ^ 32 }
def setSize (r : FSUIPCDataRequest) (dwSize : Nat) : FSUIPCDataRequest :=
  { r with m_dwSize := dwSize % 2 ^ 32 }

/-- Method `alloc(jbyteArray jData)`. `jData` is `none` for a null array, else the array
object behind the local reference; `granted` says whether the runtime grants the pin. -/
def alloc (r : FSUIPCDataRequest) (jData : Option Nat) (granted : Bool) (rt : Runtime) :
    Option (Bool × FSUIPCDataRequest × Runtime) :=
  match r.m_oJavaVM, jData with
  | some vm, some obj =>
    if vm.GetEnv ≠ 0 then some (false, r, rt)
    else
      match rt.NewGlobalRef (.localRef obj) with
      | none => none
      | some (g, rt1) =>
        match rt1.GetByteArrayElements (.globalRef g) granted with
        | none => none
        | some (none, rt2) =>
          match rt2.DeleteGlobalRef g with
          | none => none
          | some rt3 => some (false, { r with m_oData := some g, m_cData := none }, rt3)
        | some (some p, rt2) => some (true, { r with m_oData := some g, m_cData := some p }, rt2)
  | _, _ => some (false, r, rt)

/-- Method `release()`. -/
def release (r : FSUIPCDataRequest) (rt : Runtime) :
    Option (Bool × FSUIPCDataRequest × Runtime) :=
  match r.m_oJavaVM, r.m_oData, r.m_cData with
  | some vm, some g, some p =>
    if vm.GetEnv ≠ 0 then some (false, r, rt)
    else
      match rt.ReleaseByteArrayElements (.globalRef g) p with
      | none => none
      | some rt1 =>
        match rt1.DeleteGlobalRef g with
        | none => none
        | some rt2 => some (true, { r with m_cData := none }, rt2)
  | _, _, _ => some (false, r, rt)

/-- Destructor `~FSUIPCDataRequest()`: calls `release()`; the record is gone afterwards. -/
def destroy (r : FSUIPCDataRequest) (rt : Runtime) : Option Runtime :=
  (r.release rt).map fun x => x.2.2

/-- The guard of `release()` passes: none of `m_oJavaVM`, `m_oData`, `m_cData` is null. -/
def armed (r : FSUIPCDataRequest) : Prop :=
  r.m_oJavaVM ≠ none ∧ r.m_oData ≠ none ∧ r.m_cData ≠ none

instance (r : FSUIPCDataRequest) : Decidable r.armed := by
  unfold armed; infer_instance

end FSUIPCDataRequest

/-! ## FSUIPCDataRequestManager -/

/-- Class `FSUIPCDataRequestManager`: the vector `m_arRequests`. -/
structure FSUIPCDataRequestManager where
  m_arRequests : List FSUIPCDataRequest
deriving DecidableEq, Repr

namespace FSUIPCDataRequestManager

/-- Method `addRequest(FSUIPCDataRequest* dataRequest)`; `none` is the null pointer. -/
def addRequest (m : FSUIPCDataRequestManager) (dataRequest : Option FSUIPCDataRequest) :
    FSUIPCDataRequestManager :=
  match dataRequest with
  | some r => { m_arRequests := m.m_arRequests ++ [r] }
  | none => m

/-- The `for` loop of `releaseAll`: `n` iterations starting at index `i`. -/
def releaseLoop (m_arRequests : List FSUIPCDataRequest) :
    Nat → Nat → Runtime → Option Runtime
  | 0, _, rt => some rt
  | n + 1, i, rt =>
    match m_arRequests[i]? with
    | none => none
    | some dataRequest =>
      match dataRequest.release rt with
      | none => none
      | some (_, dataRequest1, rt1) =>
        match dataRequest1.destroy rt1 with
        | none => none
        | some rt2 => releaseLoop m_arRequests n (i + 1) rt2

/-- Method `releaseAll()`. -/
def releaseAll (m : FSUIPCDataRequestManager) (rt : Runtime) :
    Option (FSUIPCDataRequestManager × Runtime) :=
  let iSize := m.m_arRequests.length
  match releaseLoop m.m_arRequests iSize 0 rt with
  | none => none
  | some rt1 => some ({ m_arRequests := [] }, rt1)

/-- The body of one iteration of the loop in `releaseAll`, as the spec words it: invoke
`release()` on the record, whatever it reports, then discard (destroy) the record. -/
def flushOne (r : FSUIPCDataRequest) (rt : Runtime) : Option Runtime :=
  match r.release rt with
  | none => none
  | some (_, r1, rt1) => r1.destroy rt1

/-- The flush as the spec words it: every record of the sequence, in insertion order. -/
def flushSeq : List FSUIPCDataRequest → Runtime → Option Runtime
  | [], rt => some rt
  | r :: rs, rt =>
    match flushOne r rt with
    | none => none
    | some rt1 => flushSeq rs rt1

end FSUIPCDataRequestManager

/-! ## The JNI entry points of fsuipc_java64.cpp -/

/-- The file-scope variables of `fsuipc_java64.cpp` the entry points use, together with the
Java runtime they act on. -/
structure Bridge where
  iResult : Nat
  oFSUIPCDataRequestManager : FSUIPCDataRequestManager
  cachedJVM : Option JavaVM
  rt : Runtime

/-- The Registry's pending sequence. -/
def Bridge.pending (s : Bridge) : List FSUIPCDataRequest :=
  s.oFSUIPCDataRequestManager.m_arRequests

/-- Entry point `open(aFlightSim)`; `lib` is the reply of `FSUIPC_Open`. -/
def FSUIPCWrapper_open (s : Bridge) (aFlightSim : Int) (lib : LibReply) :
    Option (Int × Bridge) :=
  let iRet := lib.ret
  some (iRet, { s with iResult := lib.result })

/-- Entry point `close()`: `FSUIPC_Close()` and then `releaseAll()`. -/
def FSUIPCWrapper_close (s : Bridge) : Option Bridge :=
  match s.oFSUIPCDataRequestManager.releaseAll s.rt with
  | none => none
  | some (m, rt1) => some { s with oFSUIPCDataRequestManager := m, rt := rt1 }

/-- Entry point `process()`; `lib` is the reply of `FSUIPC_Process` and `writes` the bytes it
stores into the native buffers. -/
def FSUIPCWrapper_process (s : Bridge) (lib : LibReply)
    (writes : Nat → List jbyte → List jbyte) : Option (Int × Bridge) :=
  let iRet := lib.ret
  let rt1 := processWrites writes s.rt
  match s.oFSUIPCDataRequestManager.releaseAll rt1 with
  | none => none
  | some (m, rt2) =>
    some (iRet, { s with iResult := lib.result, oFSUIPCDataRequestManager := m, rt := rt2 })

/-- Entry point `read(aOffset, aSize, aData)`; `granted` is the outcome of the pin inside
`alloc`, `lib` the reply of `FSUIPC_Read`. The record is added only when `iRet` is non-zero;
otherwise the heap record is neither destroyed nor stored. -/
def FSUIPCWrapper_read (s : Bridge) (aOffset aSize : Int) (aData : Option Nat)
    (granted : Bool) (lib : LibReply) : Option (Int × Bridge) :=
  let dataRequest := FSUIPCDataRequest.mk_ s.cachedJVM
  match dataRequest.alloc aData granted s.rt with
  | none => none
  | some (true, dataRequest1, rt1) =>
    let iRet := lib.ret
    if iRet ≠ 0 then
      some (iRet, { s with
        iResult := lib.result,
        oFSUIPCDataRequestManager := s.oFSUIPCDataRequestManager.addRequest (some dataRequest1),
        rt := rt1 })
    else some (iRet, { s with iResult := lib.result, rt := rt1 })
  | some (false, _, rt1) => some (0, { s with rt := rt1 })

/-- Entry point `write(aOffset, aSize, aData)`; as `read`, with `lib` the reply of
`FSUIPC_Write`. -/
def FSUIPCWrapper_write (s : Bridge) (aOffset aSize : Int) (aData : Option Nat)
    (granted : Bool) (lib : LibReply) : Option (Int × Bridge) :=
  let dataRequest := FSUIPCDataRequest.mk_ s.cachedJVM
  match dataRequest.alloc aData granted s.rt with
  | none => none
  | some (true, dataRequest1, rt1) =>
    let iRet := lib.ret
    if iRet ≠ 0 then
      some (iRet, { s with
        iResult := lib.result,
        oFSUIPCDataRequestManager := s.oFSUIPCDataRequestManager.addRequest (some dataRequest1),
        rt := rt1 })
    else some (iRet, { s with iResult := lib.result, rt := rt1 })
  | some (false, _, rt1) => some (0, { s with rt := rt1 })

/-- The C expression `a & b` on two `int` values. -/
def bitAnd (a b : Int) : Int := Int.land a b

/-- Entry point `readData(aOffset, aSize, aData)`: pin, `FSUIPC_Read` (reply `lib1`),
`FSUIPC_Process` (reply `lib2`, stores `writes`), un-pin. The array reference and the pinned
pointer are used unchecked. -/
def FSUIPCWrapper_readData (s : Bridge) (aOffset aSize : Int) (aData : Option Nat)
    (granted : Bool) (lib1 lib2 : LibReply) (writes : Nat → List jbyte → List jbyte) :
    Option (Int × Bridge) :=
  let bRet : Int := 1
  match aData with
  | none => none
  | some obj =>
    match s.rt.GetByteArrayElements (.localRef obj) granted with
    | none => none
    | some (data, rt1) =>
      let bRet := bitAnd bRet lib1.ret
      let bRet := bitAnd bRet lib2.ret
      let rt2 := processWrites writes rt1
      match data with
      | none => none
      | some p =>
        match rt2.ReleaseByteArrayElements (.localRef obj) p with
        | none => none
        | some rt3 => some (bRet, { s with iResult := lib2.result, rt := rt3 })

/-- Entry point `writeData(aOffset, aSize, aData)`: as `readData`, with `lib1` the reply of
`FSUIPC_Write`. -/
def FSUIPCWrapper_writeData (s : Bridge) (aOffset aSize : Int) (aData : Option Nat)
    (granted : Bool) (lib1 lib2 : LibReply) (writes : Nat → List jbyte → List jbyte) :
    Option (Int × Bridge) :=
  let bRet : Int := 1
  match aData with
  | none => none
  | some obj =>
    match s.rt.GetByteArrayElements (.localRef obj) granted with
    | none => none
    | some (data, rt1) =>
      let bRet := bitAnd bRet lib1.ret
      let bRet := bitAnd bRet lib2.ret
      let rt2 := processWrites writes rt1
      match data with
      | none => none
      | some p =>
        match rt2.ReleaseByteArrayElements (.localRef obj) p with
        | none => none
        | some rt3 => some (bRet, { s with iResult := lib2.result, rt := rt3 })

/-! ## Sequences of boundary calls -/

/-- One boundary call, with the outcomes the environment chose for it. -/
inductive Call where
  | open_ (aFlightSim : Int) (lib : LibReply)
  | close
  | process (lib : LibReply) (writes : Nat → List jbyte → List jbyte)
  | read (aOffset aSize : Int) (aData : Option Nat) (granted : Bool) (lib : LibReply)
  | write (aOffset aSize : Int) (aData : Option Nat) (granted : Bool) (lib : LibReply)
  | readData (aOffset aSize : Int) (aData : Option Nat) (granted : Bool)
      (lib1 lib2 : LibReply) (writes : Nat → List jbyte → List jbyte)
  | writeData (aOffset aSize : Int) (aData : Option Nat) (granted : Bool)
      (lib1 lib2 : LibReply) (writes : Nat → List jbyte → List jbyte)

/-- The state after one boundary call (its return value dropped). -/
def step (s : Bridge) : Call → Option Bridge
  | .open_ f lib => (FSUIPCWrapper_open s f lib).map Prod.snd
  | .close => FSUIPCWrapper_close s
  | .process lib w => (FSUIPCWrapper_process s lib w).map Prod.snd
  | .read o n a g lib => (FSUIPCWrapper_read s o n a g lib).map Prod.snd
  | .write o n a g lib => (FSUIPCWrapper_write s o n a g lib).map Prod.snd
  | .readData o n a g l1 l2 w => (FSUIPCWrapper_readData s o n a g l1 l2 w).map Prod.snd
  | .writeData o n a g l1 l2 w => (FSUIPCWrapper_writeData s o n a g l1 l2 w).map Prod.snd

/-- The state after a sequence of boundary calls. -/
def run (s : Bridge) : List Call → Option Bridge
  | [] => some s
  | c :: cs =>
    match step s c with
    | none => none
    | some s1 => run s1 cs

/-- States reachable from a Bridge with an empty Registry by boundary calls. -/
inductive Reachable : Bridge → Prop where
  | init (s : Bridge) (h : s.pending = []) : Reachable s
  | step (s s1 : Bridge) (c : Call) (hs : Reachable s) (h : step s c = some s1) : Reachable s1

/-- Repeated `release()` calls on one record: the results in call order, the record and the
runtime at the end. -/
def releaseTimes : Nat → FSUIPCDataRequest → Runtime →
    Option (List Bool × FSUIPCDataRequest × Runtime)
  | 0, r, rt => some ([], r, rt)
  | n + 1, r, rt =>
    match r.release rt with
    | none => none
    | some (b, r1, rt1) =>
      match releaseTimes n r1 rt1 with
      | none => none
      | some (bs, r2, rt2) => some (b :: bs, r2, rt2)

/-! ## What a successful alloc leaves behind -/

/-- The runtime after a successful `alloc` on array object `obj`: one more global reference
(to `obj`) and one more native buffer (a copy of the contents of `obj`). -/
def Runtime.afterAlloc (rt : Runtime) (obj : Nat) : Runtime :=
  { arrays := rt.arrays,
    globalRefs := (freshHandle (rt.globalRefs.map Prod.fst), obj) :: rt.globalRefs,
    elems := (freshHandle (rt.elems.map Prod.fst), rt.arrays obj) :: rt.elems }

/-- The record a successful `alloc` makes of the fresh record `FSUIPCDataRequest(cachedJVM)`
in runtime `rt`. -/
def allocated (oJavaVM : Option JavaVM) (rt : Runtime) : FSUIPCDataRequest :=
  { m_dwOffset := 0, m_dwSize := 0,
    m_cData := some (freshHandle (rt.elems.map Prod.fst)),
    m_oData := some (freshHandle (rt.globalRefs.map Prod.fst)),
    m_oJavaVM := oJavaVM }

/-- The runtime after the synchronous `readData`/`writeData` on array object `obj`: the
library has written into every native buffer, the buffer of the call has been copied back
into `obj` and freed. -/
def Runtime.afterSync (rt : Runtime) (obj : Nat) (writes : Nat → List jbyte → List jbyte) :
    Runtime :=
  { arrays := Function.update rt.arrays obj
      (writeInto (rt.arrays obj) (writes (freshHandle (rt.elems.map Prod.fst)) (rt.arrays obj))),
    globalRefs := rt.globalRefs,
    elems := (processWrites writes rt).elems }

/-! ## Predicates on records and registries -/

/-- A record whose `release()` reports failure in every runtime: it is not armed, or its
`JavaVM` cannot supply the environment. -/
def Failing (r : FSUIPCDataRequest) : Prop :=
  ¬ r.armed ∨ ∃ vm, r.m_oJavaVM = some vm ∧ vm.GetEnv ≠ 0

/-- A record that is armed on live handles in runtime `rt`: its `JavaVM` supplies the
environment, `m_oData` is a live global reference and `m_cData` a live native buffer. -/
def Held (rt : Runtime) (r : FSUIPCDataRequest) : Prop :=
  ∃ vm g p o buf, r.m_oJavaVM = some vm ∧ vm.GetEnv = 0 ∧ r.m_oData = some g ∧
    r.m_cData = some p ∧ assoc g rt.globalRefs = some o ∧ assoc p rt.elems = some buf

/-- Two records own different handles. -/
def Apart (a b : FSUIPCDataRequest) : Prop :=
  a.m_oData ≠ b.m_oData ∧ a.m_cData ≠ b.m_cData

/-- A sequence of records every one of which either fails to release or is armed on live
handles of its own. -/
def Flushable (rt : Runtime) (rs : List FSUIPCDataRequest) : Prop :=
  (∀ r ∈ rs, Failing r ∨ Held rt r) ∧
  rs.Pairwise fun a b => Failing a ∨ Failing b ∨ Apart a b

/-- The registry invariant: every pending record is armed on live handles, and no two
pending records share a handle. -/
def Inv (s : Bridge) : Prop :=
  (∀ r ∈ s.pending, Held s.rt r) ∧ s.pending.Pairwise Apart

/-- A global reference `g` (to array `obj`) and a native buffer `p` that are live and that
no pending record owns: nothing in the Registry will ever release them. -/
def Leaked (g p obj : Nat) (s : Bridge) : Prop :=
  assoc g s.rt.globalRefs = some obj ∧ (assoc p s.rt.elems).isSome ∧
  ∀ r ∈ s.pending, r.m_oData ≠ some g ∧ r.m_cData ≠ some p

/-- The runtime with one more global reference and one more native buffer. -/
def Runtime.extend (rt : Runtime) (eg : Nat × Nat) (ee : Nat × List jbyte) : Runtime :=
  { arrays := rt.arrays, globalRefs := eg :: rt.globalRefs, elems := ee :: rt.elems }

/-! ## Concrete data used to exercise the statements -/



/-- A virtual machine whose `GetEnv` reports `JNI_OK`. -/
def vmOk : JavaVM := { getEnvStatus := 0 }

/-- A runtime in which every byte array holds four zero bytes, with nothing pinned. -/
def rtZero : Runtime := { arrays := fun _ => [0, 0, 0, 0], globalRefs := [], elems := [] }

/-- A runtime with one live global reference (handle 1, array 7) and one live native buffer
(address 1) holding bytes that differ from the array contents. -/
def rtHeld : Runtime :=
  { arrays := fun _ => [0, 0, 0, 0], globalRefs := [(1, 7)], elems := [(1, [1, 2, 3, 4])] }

/-- An armed record owning the handles of `rtHeld`. -/
def recHeld : FSUIPCDataRequest :=
  { m_dwOffset := 0, m_dwSize := 0, m_cData := some 1, m_oData := some 1, m_oJavaVM := some vmOk }

/-- A registry holding a never-allocated record followed by the armed record `recHeld`. -/
def mgrMixed : FSUIPCDataRequestManager :=
  { m_arRequests := [FSUIPCDataRequest.mk0, recHeld] }

/-- A Bridge with an empty Registry over `rtZero`. -/
def bridgeZero : Bridge :=
  { iResult := 0, oFSUIPCDataRequestManager := { m_arRequests := [] }, cachedJVM := some vmOk,
    rt := rtZero }

/-- A library reply reporting success. -/
def libOk : LibReply := { ret := 1, result := 0 }

/-- A library reply reporting failure (error code 15). -/
def libFail : LibReply := { ret := 0, result := 15 }

/-- A mock batched execution that stores the bytes 1,2,3,4 into every scheduled buffer. -/
def writes1234 : Nat → List jbyte → List jbyte := fun _ _ => [1, 2, 3, 4]

/-- The state `bridgeZero` after a successful `read(0x0200, 4, array 7)`. -/
def bridgeRead : Bridge :=
  { iResult := 0,
    oFSUIPCDataRequestManager := { m_arRequests := [allocated (some vmOk) rtZero] },
    cachedJVM := some vmOk,
    rt := rtZero.afterAlloc 7 }

/-- The state `bridgeZero` after a `read(0x0200, 4, array 7)` whose pin succeeded and whose
`FSUIPC_Read` failed. -/
def bridgeLeak : Bridge :=
  { iResult := 15,
    oFSUIPCDataRequestManager := { m_arRequests := [] },
    cachedJVM := some vmOk,
    rt := rtZero.afterAlloc 7 }

/-- The state `bridgeRead` after a synchronous `readData(0x0300, 4, array 8)` during which
the mock library executed the batch: the buffer of the pending read now holds 1,2,3,4 while
its array 7 still holds 0,0,0,0. -/
def bridgeUnflushed : Bridge :=
  { iResult := 0,
    oFSUIPCDataRequestManager := { m_arRequests := [allocated (some vmOk) rtZero] },
    cachedJVM := some vmOk,
    rt := (rtZero.afterAlloc 7).afterSync 8 writes1234 }

/-- The conversion of a `jint` argument to `DWORD` (unsigned 32-bit). -/
def toDWORD (x : Int) : Nat := (x % 2 ^ 32).toNat

/-- A library reply reporting success with the non-zero status 2. -/
def libTwo : LibReply := { ret := 2, result := 0 }

/-! ## Association lists and fresh handles -/

theorem le_foldr_max (l : List Nat) (k : Nat) (h : k ∈ l) : k ≤ l.foldr max 0 := by
  induction l with
  | nil => cases h
  | cons a t ih =>
    simp only [List.foldr_cons]
    rcases List.mem_cons.mp h with h1 | h1
    · subst h1; exact le_max_left _ _
    · exact le_trans (ih h1) (le_max_right _ _)

theorem freshHandle_not_mem (l : List Nat) : freshHandle l ∉ l := by
  intro h
  have := le_foldr_max l _ h
  unfold freshHandle at this
  omega

theorem assoc_eq_none_of_not_mem {β : Type} (k : Nat) (l : List (Nat × β))
    (h : k ∉ l.map Prod.fst) : assoc k l = none := by
  induction l with
  | nil => rfl
  | cons e t ih =>
    simp only [List.map_cons, List.mem_cons, not_or] at h
    simp only [assoc]
    rw [if_neg (fun hh => h.1 hh.symm)]
    exact ih h.2

theorem mem_keys_of_assoc {β : Type} (k : Nat) (l : List (Nat × β)) (v : β)
    (h : assoc k l = some v) : k ∈ l.map Prod.fst := by
  by_contra hn
  rw [assoc_eq_none_of_not_mem k l hn] at h
  cases h

theorem assoc_fresh {β : Type} (l : List (Nat × β)) :
    assoc (freshHandle (l.map Prod.fst)) l = none :=
  assoc_eq_none_of_not_mem _ _ (freshHandle_not_mem _)

theorem assoc_cons_self {β : Type} (k : Nat) (v : β) (l : List (Nat × β)) :
    assoc k ((k, v) :: l) = some v := by
  simp [assoc]

theorem assoc_cons_ne {β : Type} (k k1 : Nat) (v : β) (l : List (Nat × β)) (h : k1 ≠ k) :
    assoc k ((k1, v) :: l) = assoc k l := by
  simp [assoc, h]

theorem unbind_cons_self {β : Type} (k : Nat) (v : β) (l : List (Nat × β)) :
    unbind k ((k, v) :: l) = unbind k l := by
  simp [unbind]

theorem unbind_of_assoc_none {β : Type} (k : Nat) (l : List (Nat × β))
    (h : assoc k l = none) : unbind k l = l := by
  induction l with
  | nil => rfl
  | cons e t ih =>
    simp only [assoc] at h
    by_cases he : e.1 = k
    · rw [if_pos he] at h; cases h
    · rw [if_neg he] at h
      simp only [unbind, List.filter_cons, ne_eq, he, not_false_eq_true, decide_True, if_true]
      congr 1
      exact ih h

theorem assoc_unbind_self {β : Type} (k : Nat) (l : List (Nat × β)) :
    assoc k (unbind k l) = none := by
  apply assoc_eq_none_of_not_mem
  intro h
  rcases List.mem_map.mp h with ⟨e, he, hk⟩
  have := (List.mem_filter.mp he).2
  simp [hk] at this

theorem assoc_unbind_ne {β : Type} (k k1 : Nat) (l : List (Nat × β)) (h : k1 ≠ k) :
    assoc k (unbind k1 l) = assoc k l := by
  induction l with
  | nil => rfl
  | cons e t ih =>
    by_cases he : e.1 = k1
    · have hk : e.1 ≠ k := by rw [he]; exact h
      simp only [unbind, List.filter_cons, ne_eq, he, not_true_eq_false, decide_False,
        Bool.false_eq_true, if_false, assoc]
      rw [if_neg (by rw [← he]; exact hk)]
      exact ih
    · simp only [unbind, List.filter_cons, ne_eq, he, not_false_eq_true, decide_True, if_true,
        assoc]
      by_cases hk : e.1 = k
      · simp [hk]
      · simp only [hk, if_false]; exact ih

theorem assoc_unbind_none {β : Type} (k k1 : Nat) (l : List (Nat × β))
    (h : assoc k l = none) : assoc k (unbind k1 l) = none := by
  by_cases hk : k1 = k
  · subst hk; exact assoc_unbind_self _ _
  · rw [assoc_unbind_ne k k1 l hk]; exact h

theorem assoc_map_val {β : Type} (f : Nat → β → β) (k : Nat) (l : List (Nat × β)) :
    assoc k (l.map fun e => (e.1, f e.1 e.2)) = (assoc k l).map (f k) := by
  induction l with
  | nil => rfl
  | cons e t ih =>
    simp only [List.map_cons, assoc]
    by_cases he : e.1 = k
    · simp [he]
    · simp only [he, if_false]; exact ih

/-! ## `release()` and `alloc()` on one record -/

namespace FSUIPCDataRequest

theorem release_of_not_armed (r : FSUIPCDataRequest) (rt : Runtime) (h : ¬ r.armed) :
    r.release rt = some (false, r, rt) := by
  obtain ⟨o, n, c, d, vm⟩ := r
  cases vm <;> cases d <;> cases c <;> simp_all [release, armed]

theorem release_of_env_fail (r : FSUIPCDataRequest) (rt : Runtime) (vm : JavaVM)
    (hvm : r.m_oJavaVM = some vm) (he : vm.GetEnv ≠ 0) :
    r.release rt = some (false, r, rt) := by
  obtain ⟨o, n, c, d, v⟩ := r
  cases d <;> cases c <;> simp_all [release]

/-- What a successful `release()` does: the buffer is copied into the array the global
reference denotes, the buffer is freed, the reference deleted, `m_cData` nulled. -/
theorem release_of_held (r : FSUIPCDataRequest) (rt : Runtime) (vm : JavaVM) (g p o : Nat)
    (buf : List jbyte) (hvm : r.m_oJavaVM = some vm) (he : vm.GetEnv = 0)
    (hg : r.m_oData = some g) (hp : r.m_cData = some p)
    (hgo : assoc g rt.globalRefs = some o) (hpb : assoc p rt.elems = some buf) :
    r.release rt = some (true, { r with m_cData := none },
      { arrays := Function.update rt.arrays o buf,
        globalRefs := unbind g rt.globalRefs,
        elems := unbind p rt.elems }) := by
  obtain ⟨o1, n, c, d, v⟩ := r
  simp only at hvm hg hp
  subst hvm hg hp
  simp [release, he, Runtime.ReleaseByteArrayElements, Runtime.resolve, hgo, hpb,
    Runtime.DeleteGlobalRef]

/-- Every defined `release()` either fails and changes nothing, or succeeds on an armed
record whose handles are live. -/
theorem release_cases (r r1 : FSUIPCDataRequest) (rt rt1 : Runtime) (b : Bool)
    (h : r.release rt = some (b, r1, rt1)) :
    (b = false ∧ r1 = r ∧ rt1 = rt) ∨
    (b = true ∧ ∃ vm g p o buf, r.m_oJavaVM = some vm ∧ vm.GetEnv = 0 ∧ r.m_oData = some g ∧
      r.m_cData = some p ∧ assoc g rt.globalRefs = some o ∧ assoc p rt.elems = some buf ∧
      r1 = { r with m_cData := none } ∧
      rt1 = { arrays := Function.update rt.arrays o buf,
              globalRefs := unbind g rt.globalRefs,
              elems := unbind p rt.elems }) := by
  by_cases ha : r.armed
  · obtain ⟨o1, n, c, d, v⟩ := r
    obtain ⟨h1, h2, h3⟩ := ha
    simp only at h1 h2 h3
    obtain ⟨vm, rfl⟩ := Option.ne_none_iff_exists'.mp h1
    obtain ⟨g, rfl⟩ := Option.ne_none_iff_exists'.mp h2
    obtain ⟨p, rfl⟩ := Option.ne_none_iff_exists'.mp h3
    by_cases he : vm.GetEnv = 0
    · cases hgo : assoc g rt.globalRefs with
      | none =>
        simp [release, he, Runtime.ReleaseByteArrayElements, Runtime.resolve, hgo] at h
      | some o =>
        cases hpb : assoc p rt.elems with
        | none =>
          simp [release, he, Runtime.ReleaseByteArrayElements, Runtime.resolve, hgo, hpb] at h
        | some buf =>
          rw [release_of_held _ rt vm g p o buf rfl he rfl rfl hgo hpb] at h
          simp only [Option.some.injEq, Prod.mk.injEq] at h
          obtain ⟨hb, hr, hrt⟩ := h
          right
          exact ⟨hb.symm, vm, g, p, o, buf, rfl, he, rfl, rfl, hgo, hpb, hr.symm, hrt.symm⟩
    · rw [release_of_env_fail _ rt vm rfl he] at h
      simp only [Option.some.injEq, Prod.mk.injEq] at h
      exact Or.inl ⟨h.1.symm, h.2.1.symm, h.2.2.symm⟩
  · rw [release_of_not_armed r rt ha] at h
    simp only [Option.some.injEq, Prod.mk.injEq] at h
    exact Or.inl ⟨h.1.symm, h.2.1.symm, h.2.2.symm⟩

/-- After any defined `release()`, a further `release()` fails and changes nothing. -/
theorem release_after_release (r r1 : FSUIPCDataRequest) (rt rt1 : Runtime) (b : Bool)
    (h : r.release rt = some (b, r1, rt1)) : r1.release rt1 = some (false, r1, rt1) := by
  rcases release_cases r r1 rt rt1 b h with ⟨hb, hr, hrt⟩ | ⟨_, vm, g, p, o, buf, _, _, _, _, _, _, hr, _⟩
  · subst hb hr hrt; exact h
  · apply release_of_not_armed
    rw [hr]
    simp [armed]

end FSUIPCDataRequest

namespace FSUIPCDataRequest

/-- The handle `NewGlobalRef` hands out in runtime `rt`. -/
theorem newGlobalRef_local (rt : Runtime) (obj : Nat) :
    rt.NewGlobalRef (.localRef obj) =
      some (freshHandle (rt.globalRefs.map Prod.fst),
        { rt with globalRefs := (freshHandle (rt.globalRefs.map Prod.fst), obj) :: rt.globalRefs }) :=
  rfl

theorem alloc_of_precondition (r : FSUIPCDataRequest) (jData : Option Nat) (granted : Bool)
    (rt : Runtime)
    (h : r.m_oJavaVM = none ∨ jData = none ∨ ∃ vm, r.m_oJavaVM = some vm ∧ vm.GetEnv ≠ 0) :
    r.alloc jData granted rt = some (false, r, rt) := by
  obtain ⟨o, n, c, d, v⟩ := r
  cases v <;> cases jData <;> simp_all [alloc]

theorem alloc_of_pin_refused (r : FSUIPCDataRequest) (obj : Nat) (rt : Runtime) (vm : JavaVM)
    (hvm : r.m_oJavaVM = some vm) (he : vm.GetEnv = 0) :
    r.alloc (some obj) false rt =
      some (false, { r with m_oData := some (freshHandle (rt.globalRefs.map Prod.fst)),
                            m_cData := none }, rt) := by
  obtain ⟨o, n, c, d, v⟩ := r
  simp only at hvm
  subst hvm
  have hu : unbind (freshHandle (rt.globalRefs.map Prod.fst)) rt.globalRefs = rt.globalRefs :=
    unbind_of_assoc_none _ _ (assoc_fresh _)
  simp [alloc, he, Runtime.NewGlobalRef, Runtime.resolve, Runtime.GetByteArrayElements,
    Runtime.DeleteGlobalRef, assoc_cons_self, unbind_cons_self, hu]

theorem alloc_of_pin_granted (r : FSUIPCDataRequest) (obj : Nat) (rt : Runtime) (vm : JavaVM)
    (hvm : r.m_oJavaVM = some vm) (he : vm.GetEnv = 0) :
    r.alloc (some obj) true rt =
      some (true, { r with m_oData := some (freshHandle (rt.globalRefs.map Prod.fst)),
                           m_cData := some (freshHandle (rt.elems.map Prod.fst)) },
        { arrays := rt.arrays,
          globalRefs := (freshHandle (rt.globalRefs.map Prod.fst), obj) :: rt.globalRefs,
          elems := (freshHandle (rt.elems.map Prod.fst), rt.arrays obj) :: rt.elems }) := by
  obtain ⟨o, n, c, d, v⟩ := r
  simp only at hvm
  subst hvm
  simp [alloc, he, Runtime.NewGlobalRef, Runtime.resolve, Runtime.GetByteArrayElements,
    assoc_cons_self]

/-- The three ways `alloc` can go; it is always defined. -/
theorem alloc_cases (r : FSUIPCDataRequest) (jData : Option Nat) (granted : Bool)
    (rt : Runtime) :
    ((r.m_oJavaVM = none ∨ jData = none ∨ ∃ vm, r.m_oJavaVM = some vm ∧ vm.GetEnv ≠ 0) ∧
      r.alloc jData granted rt = some (false, r, rt)) ∨
    (∃ vm obj, r.m_oJavaVM = some vm ∧ vm.GetEnv = 0 ∧ jData = some obj ∧ granted = false ∧
      r.alloc jData granted rt =
        some (false, { r with m_oData := some (freshHandle (rt.globalRefs.map Prod.fst)),
                              m_cData := none }, rt)) ∨
    (∃ vm obj, r.m_oJavaVM = some vm ∧ vm.GetEnv = 0 ∧ jData = some obj ∧ granted = true ∧
      r.alloc jData granted rt =
        some (true, { r with m_oData := some (freshHandle (rt.globalRefs.map Prod.fst)),
                             m_cData := some (freshHandle (rt.elems.map Prod.fst)) },
          { arrays := rt.arrays,
            globalRefs := (freshHandle (rt.globalRefs.map Prod.fst), obj) :: rt.globalRefs,
            elems := (freshHandle (rt.elems.map Prod.fst), rt.arrays obj) :: rt.elems })) := by
  cases hv : r.m_oJavaVM with
  | none => exact Or.inl ⟨Or.inl rfl, alloc_of_precondition r jData granted rt (Or.inl hv)⟩
  | some vm =>
    cases hj : jData with
    | none =>
      exact Or.inl ⟨Or.inr (Or.inl rfl),
        alloc_of_precondition r none granted rt (Or.inr (Or.inl rfl))⟩
    | some obj =>
      by_cases he : vm.GetEnv = 0
      · cases hg : granted with
        | false =>
          have h := alloc_of_pin_refused r obj rt vm hv he
          rw [hv] at h
          exact Or.inr (Or.inl ⟨vm, obj, rfl, he, rfl, rfl, h⟩)
        | true =>
          have h := alloc_of_pin_granted r obj rt vm hv he
          rw [hv] at h
          exact Or.inr (Or.inr ⟨vm, obj, rfl, he, rfl, rfl, h⟩)
      · exact Or.inl ⟨Or.inr (Or.inr ⟨vm, rfl, he⟩),
          alloc_of_precondition r (some obj) granted rt (Or.inr (Or.inr ⟨vm, hv, he⟩))⟩

end FSUIPCDataRequest

theorem releaseTimes_after_release (n : Nat) (r r1 : FSUIPCDataRequest) (rt rt1 : Runtime)
    (b : Bool) (h : r.release rt = some (b, r1, rt1)) :
    releaseTimes n r1 rt1 = some (List.replicate n false, r1, rt1) := by
  have h1 := FSUIPCDataRequest.release_after_release r r1 rt rt1 b h
  induction n with
  | zero => rfl
  | succ k ih => simp [releaseTimes, h1, ih, List.replicate_succ]

/-! ## The flush -/

namespace FSUIPCDataRequestManager

theorem flushOne_eq (r : FSUIPCDataRequest) (rt : Runtime) :
    flushOne r rt = (r.release rt).map fun x => x.2.2 := by
  unfold flushOne
  cases h : r.release rt with
  | none => rfl
  | some x =>
    obtain ⟨b, r1, rt1⟩ := x
    simp [FSUIPCDataRequest.destroy, FSUIPCDataRequest.release_after_release r r1 rt rt1 b h]

theorem release_of_failing (r : FSUIPCDataRequest) (rt : Runtime) (h : Failing r) :
    r.release rt = some (false, r, rt) := by
  rcases h with h | ⟨vm, hvm, he⟩
  · exact FSUIPCDataRequest.release_of_not_armed r rt h
  · exact FSUIPCDataRequest.release_of_env_fail r rt vm hvm he

theorem flushOne_of_failing (r : FSUIPCDataRequest) (rt : Runtime) (h : Failing r) :
    flushOne r rt = some rt := by
  rw [flushOne_eq, release_of_failing r rt h]; rfl

theorem flushOne_of_held (r : FSUIPCDataRequest) (rt : Runtime) (vm : JavaVM) (g p o : Nat)
    (buf : List jbyte) (hvm : r.m_oJavaVM = some vm) (he : vm.GetEnv = 0)
    (hg : r.m_oData = some g) (hp : r.m_cData = some p)
    (hgo : assoc g rt.globalRefs = some o) (hpb : assoc p rt.elems = some buf) :
    flushOne r rt = some { arrays := Function.update rt.arrays o buf,
                           globalRefs := unbind g rt.globalRefs,
                           elems := unbind p rt.elems } := by
  rw [flushOne_eq, FSUIPCDataRequest.release_of_held r rt vm g p o buf hvm he hg hp hgo hpb]; rfl

theorem flushOne_cases (r : FSUIPCDataRequest) (rt rt1 : Runtime)
    (h : flushOne r rt = some rt1) :
    rt1 = rt ∨
    ∃ vm g p o buf, r.m_oJavaVM = some vm ∧ vm.GetEnv = 0 ∧ r.m_oData = some g ∧
      r.m_cData = some p ∧ assoc g rt.globalRefs = some o ∧ assoc p rt.elems = some buf ∧
      rt1 = { arrays := Function.update rt.arrays o buf,
              globalRefs := unbind g rt.globalRefs,
              elems := unbind p rt.elems } := by
  rw [flushOne_eq] at h
  cases hr : r.release rt with
  | none => rw [hr] at h; cases h
  | some x =>
    obtain ⟨b, r1, rta⟩ := x
    rw [hr] at h
    simp only [Option.map_some', Option.some.injEq] at h
    subst h
    rcases FSUIPCDataRequest.release_cases r r1 rt rta b hr with
      ⟨_, _, hrt⟩ | ⟨_, vm, g, p, o, buf, h1, h2, h3, h4, h5, h6, _, h8⟩
    · exact Or.inl hrt
    · exact Or.inr ⟨vm, g, p, o, buf, h1, h2, h3, h4, h5, h6, h8⟩

theorem flushSeq_append (xs ys : List FSUIPCDataRequest) (rt : Runtime) :
    flushSeq (xs ++ ys) rt = (flushSeq xs rt).bind (flushSeq ys) := by
  induction xs generalizing rt with
  | nil => rfl
  | cons x t ih =>
    simp only [List.cons_append, flushSeq]
    cases flushOne x rt with
    | none => rfl
    | some rt1 => exact ih rt1

/-- The index loop of `releaseAll` visits the records from index `pre.length` on, one after
the other. -/
theorem releaseLoop_eq_flushSeq (pre rs : List FSUIPCDataRequest) (rt : Runtime) :
    releaseLoop (pre ++ rs) rs.length pre.length rt = flushSeq rs rt := by
  induction rs generalizing pre rt with
  | nil => rfl
  | cons r t ih =>
    have hget : (pre ++ r :: t)[pre.length]? = some r := by
      rw [List.getElem?_append_right (le_refl _)]; simp
    simp only [List.length_cons, releaseLoop, hget, flushSeq, flushOne]
    cases hr : r.release rt with
    | none => rfl
    | some x =>
      obtain ⟨b, r1, rt1⟩ := x
      simp only
      cases hd : r1.destroy rt1 with
      | none => rfl
      | some rt2 =>
        simp only
        have := ih (pre ++ [r]) rt2
        simpa using this

theorem releaseAll_eq_flushSeq (m : FSUIPCDataRequestManager) (rt : Runtime) :
    m.releaseAll rt = (flushSeq m.m_arRequests rt).map fun rt1 => ({ m_arRequests := [] }, rt1) := by
  unfold releaseAll
  have := releaseLoop_eq_flushSeq [] m.m_arRequests rt
  simp only [List.nil_append, List.length_nil] at this
  simp only [this]
  cases flushSeq m.m_arRequests rt <;> rfl

theorem held_not_failing (rt : Runtime) (r : FSUIPCDataRequest) (h : Held rt r) :
    ¬ Failing r := by
  obtain ⟨vm, g, p, o, buf, h1, h2, h3, h4, _, _⟩ := h
  rintro (hf | ⟨vm1, hv1, he1⟩)
  · exact hf ⟨by simp [h1], by simp [h3], by simp [h4]⟩
  · rw [h1] at hv1; cases hv1; exact he1 h2

/-- Releasing one record leaves every record that owns other handles armed on live handles,
with the same target array and the same buffer contents. -/
theorem held_after_flushOne (r r1 : FSUIPCDataRequest) (rt rt1 : Runtime)
    (h : flushOne r rt = some rt1) (hh : Held rt r1) (ha : Failing r ∨ Apart r r1) :
    Held rt1 r1 := by
  rcases flushOne_cases r rt rt1 h with h0 | ⟨vm, g, p, o, buf, h1, h2, h3, h4, h5, h6, h7⟩
  · rw [h0]; exact hh
  · rcases ha with hf | ⟨hg, hp⟩
    · exact absurd hf (held_not_failing rt r ⟨vm, g, p, o, buf, h1, h2, h3, h4, h5, h6⟩)
    · obtain ⟨vm1, g1, p1, o1, buf1, k1, k2, k3, k4, k5, k6⟩ := hh
      rw [h3, k3] at hg
      rw [h4, k4] at hp
      have hg1 : g ≠ g1 := fun e => hg (by rw [e])
      have hp1 : p ≠ p1 := fun e => hp (by rw [e])
      refine ⟨vm1, g1, p1, o1, buf1, k1, k2, k3, k4, ?_, ?_⟩
      · rw [h7]; simp only; rw [assoc_unbind_ne g1 g _ hg1]; exact k5
      · rw [h7]; simp only; rw [assoc_unbind_ne p1 p _ hp1]; exact k6

theorem flushable_tail (r : FSUIPCDataRequest) (rs : List FSUIPCDataRequest) (rt rt1 : Runtime)
    (hf : Flushable rt (r :: rs)) (h : flushOne r rt = some rt1) : Flushable rt1 rs := by
  obtain ⟨hall, hpw⟩ := hf
  rw [List.pairwise_cons] at hpw
  refine ⟨?_, hpw.2⟩
  intro x hx
  rcases hall x (List.mem_cons_of_mem _ hx) with hx1 | hx1
  · exact Or.inl hx1
  · rcases hpw.1 x hx with h1 | h1 | h1
    · exact Or.inr (held_after_flushOne r x rt rt1 h hx1 (Or.inl h1))
    · exact Or.inl h1
    · exact Or.inr (held_after_flushOne r x rt rt1 h hx1 (Or.inr h1))

theorem flushOne_defined (r : FSUIPCDataRequest) (rt : Runtime) (h : Failing r ∨ Held rt r) :
    ∃ rt1, flushOne r rt = some rt1 := by
  rcases h with h | ⟨vm, g, p, o, buf, h1, h2, h3, h4, h5, h6⟩
  · exact ⟨rt, flushOne_of_failing r rt h⟩
  · exact ⟨_, flushOne_of_held r rt vm g p o buf h1 h2 h3 h4 h5 h6⟩

theorem flushSeq_defined (rs : List FSUIPCDataRequest) (rt : Runtime) (hf : Flushable rt rs) :
    ∃ rt1, flushSeq rs rt = some rt1 := by
  induction rs generalizing rt with
  | nil => exact ⟨rt, rfl⟩
  | cons r t ih =>
    obtain ⟨rt1, h1⟩ := flushOne_defined r rt (hf.1 r (List.mem_cons_self _ _))
    obtain ⟨rt2, h2⟩ := ih rt1 (flushable_tail r t rt rt1 hf h1)
    exact ⟨rt2, by simp [flushSeq, h1, h2]⟩

end FSUIPCDataRequestManager

/-! ## The entry points, case by case -/

theorem write_eq_read : FSUIPCWrapper_write = FSUIPCWrapper_read := rfl

theorem writeData_eq_readData : FSUIPCWrapper_writeData = FSUIPCWrapper_readData := rfl

theorem bridge_rt_eta (s : Bridge) : ({ s with rt := s.rt } : Bridge) = s := rfl

/-- The outcomes of `read`: (A) `alloc` fails, nothing changes; (B) `alloc` succeeds and
`FSUIPC_Read` returns zero, the pinned record is dropped; (C) both succeed, the record is
appended. -/
theorem read_cases (s : Bridge) (aOffset aSize : Int) (aData : Option Nat) (granted : Bool)
    (lib : LibReply) :
    (((s.cachedJVM = none ∨ aData = none ∨ ∃ vm, s.cachedJVM = some vm ∧ vm.GetEnv ≠ 0) ∨
        (∃ vm obj, s.cachedJVM = some vm ∧ vm.GetEnv = 0 ∧ aData = some obj ∧ granted = false)) ∧
      FSUIPCWrapper_read s aOffset aSize aData granted lib = some (0, s)) ∨
    (∃ vm obj, s.cachedJVM = some vm ∧ vm.GetEnv = 0 ∧ aData = some obj ∧ granted = true ∧
      lib.ret = 0 ∧
      FSUIPCWrapper_read s aOffset aSize aData granted lib =
        some (0, { s with iResult := lib.result, rt := s.rt.afterAlloc obj })) ∨
    (∃ vm obj, s.cachedJVM = some vm ∧ vm.GetEnv = 0 ∧ aData = some obj ∧ granted = true ∧
      lib.ret ≠ 0 ∧
      FSUIPCWrapper_read s aOffset aSize aData granted lib =
        some (lib.ret, { s with
          iResult := lib.result,
          oFSUIPCDataRequestManager :=
            { m_arRequests := s.pending ++ [allocated s.cachedJVM s.rt] },
          rt := s.rt.afterAlloc obj })) := by
  rcases FSUIPCDataRequest.alloc_cases (FSUIPCDataRequest.mk_ s.cachedJVM) aData granted s.rt
    with ⟨hpre, h⟩ | ⟨vm, obj, hvm, he, hj, hg, h⟩ | ⟨vm, obj, hvm, he, hj, hg, h⟩
  · left
    refine ⟨Or.inl hpre, ?_⟩
    simp only [FSUIPCWrapper_read, h]
  · left
    refine ⟨Or.inr ⟨vm, obj, hvm, he, hj, hg⟩, ?_⟩
    simp only [FSUIPCWrapper_read, h]
  · right
    by_cases hl : lib.ret = 0
    · left
      refine ⟨vm, obj, hvm, he, hj, hg, hl, ?_⟩
      simp only [FSUIPCWrapper_read, h, hl]
      rfl
    · right
      refine ⟨vm, obj, hvm, he, hj, hg, hl, ?_⟩
      simp only [FSUIPCWrapper_read, h]
      rw [if_pos hl]
      rfl

/-- The synchronous `readData` returns exactly when the array is non-null and the pin is
granted. -/
theorem readData_of_pinned (s : Bridge) (aOffset aSize : Int) (obj : Nat)
    (lib1 lib2 : LibReply) (writes : Nat → List jbyte → List jbyte) :
    FSUIPCWrapper_readData s aOffset aSize (some obj) true lib1 lib2 writes =
      some (bitAnd (bitAnd 1 lib1.ret) lib2.ret,
        { s with iResult := lib2.result, rt := s.rt.afterSync obj writes }) := by
  simp only [FSUIPCWrapper_readData, Runtime.GetByteArrayElements, Runtime.resolve, if_true,
    Runtime.ReleaseByteArrayElements, processWrites, List.map_cons, assoc_cons_self,
    unbind_cons_self]
  have hu : unbind (freshHandle (s.rt.elems.map Prod.fst))
      (s.rt.elems.map fun e => (e.1, writeInto e.2 (writes e.1 e.2))) =
      s.rt.elems.map fun e => (e.1, writeInto e.2 (writes e.1 e.2)) := by
    apply unbind_of_assoc_none
    rw [assoc_map_val (fun k v => writeInto v (writes k v)), assoc_fresh]
    rfl
  rw [hu]
  rfl

theorem readData_defined_iff (s : Bridge) (aOffset aSize : Int) (aData : Option Nat)
    (granted : Bool) (lib1 lib2 : LibReply) (writes : Nat → List jbyte → List jbyte) :
    (FSUIPCWrapper_readData s aOffset aSize aData granted lib1 lib2 writes).isSome ↔
      (aData ≠ none ∧ granted = true) := by
  cases aData with
  | none => simp [FSUIPCWrapper_readData]
  | some obj =>
    cases granted with
    | true => simp [readData_of_pinned]
    | false => simp [FSUIPCWrapper_readData, Runtime.GetByteArrayElements, Runtime.resolve]

/-! ## What a flush leaves alone -/

namespace FSUIPCDataRequestManager

/-- A flush deletes only references that pending records own. -/
theorem flushSeq_refs_frame (rs : List FSUIPCDataRequest) (rt rt1 : Runtime)
    (h : flushSeq rs rt = some rt1) (k : Nat) (hk : ∀ r ∈ rs, r.m_oData ≠ some k) :
    assoc k rt1.globalRefs = assoc k rt.globalRefs := by
  induction rs generalizing rt with
  | nil => simp only [flushSeq, Option.some.injEq] at h; rw [h]
  | cons r t ih =>
    simp only [flushSeq] at h
    cases h1 : flushOne r rt with
    | none => rw [h1] at h; cases h
    | some rta =>
      rw [h1] at h
      rw [ih rta h (fun x hx => hk x (List.mem_cons_of_mem _ hx))]
      rcases flushOne_cases r rt rta h1 with h0 | ⟨vm, g, p, o, buf, _, _, h3, _, _, _, h7⟩
      · rw [h0]
      · rw [h7]
        have hne : g ≠ k := fun e => hk r (List.mem_cons_self _ _) (by rw [h3, e])
        exact assoc_unbind_ne k g _ hne

/-- A flush frees only buffers that pending records own, and leaves the others as they are. -/
theorem flushSeq_elems_frame (rs : List FSUIPCDataRequest) (rt rt1 : Runtime)
    (h : flushSeq rs rt = some rt1) (k : Nat) (hk : ∀ r ∈ rs, r.m_cData ≠ some k) :
    assoc k rt1.elems = assoc k rt.elems := by
  induction rs generalizing rt with
  | nil => simp only [flushSeq, Option.some.injEq] at h; rw [h]
  | cons r t ih =>
    simp only [flushSeq] at h
    cases h1 : flushOne r rt with
    | none => rw [h1] at h; cases h
    | some rta =>
      rw [h1] at h
      rw [ih rta h (fun x hx => hk x (List.mem_cons_of_mem _ hx))]
      rcases flushOne_cases r rt rta h1 with h0 | ⟨vm, g, p, o, buf, _, _, _, h4, _, _, h7⟩
      · rw [h0]
      · rw [h7]
        have hne : p ≠ k := fun e => hk r (List.mem_cons_self _ _) (by rw [h4, e])
        exact assoc_unbind_ne k p _ hne

/-- A flush creates no reference. -/
theorem flushSeq_refs_sub (rs : List FSUIPCDataRequest) (rt rt1 : Runtime)
    (h : flushSeq rs rt = some rt1) (k o : Nat) (hk : assoc k rt1.globalRefs = some o) :
    assoc k rt.globalRefs = some o := by
  induction rs generalizing rt with
  | nil => simp only [flushSeq, Option.some.injEq] at h; rw [h]; exact hk
  | cons r t ih =>
    simp only [flushSeq] at h
    cases h1 : flushOne r rt with
    | none => rw [h1] at h; cases h
    | some rta =>
      rw [h1] at h
      have h2 := ih rta h
      rcases flushOne_cases r rt rta h1 with h0 | ⟨vm, g, p, o1, buf, _, _, _, _, _, _, h7⟩
      · rw [← h0]; exact h2
      · rw [h7] at h2
        simp only at h2
        by_cases hg : g = k
        · rw [hg, assoc_unbind_self] at h2; cases h2
        · rw [assoc_unbind_ne k g _ hg] at h2; exact h2

/-- A flush changes only arrays that pending records refer to. -/
theorem flushSeq_arrays_frame (rs : List FSUIPCDataRequest) (rt rt1 : Runtime)
    (h : flushSeq rs rt = some rt1) (obj : Nat)
    (hk : ∀ r ∈ rs, ∀ g, r.m_oData = some g → assoc g rt.globalRefs ≠ some obj) :
    rt1.arrays obj = rt.arrays obj := by
  induction rs generalizing rt with
  | nil => simp only [flushSeq, Option.some.injEq] at h; rw [h]
  | cons r t ih =>
    simp only [flushSeq] at h
    cases h1 : flushOne r rt with
    | none => rw [h1] at h; cases h
    | some rta =>
      rw [h1] at h
      rcases flushOne_cases r rt rta h1 with h0 | ⟨vm, g, p, o1, buf, _, _, h3, _, h5, _, h7⟩
      · subst h0
        exact ih rta h (fun x hx => hk x (List.mem_cons_of_mem _ hx))
      · have hne : o1 ≠ obj := fun e => hk r (List.mem_cons_self _ _) g h3 (by rw [h5, e])
        have h2 : rt1.arrays obj = rta.arrays obj := by
          apply ih rta h
          intro x hx g1 hg1 hcon
          apply hk x (List.mem_cons_of_mem _ hx) g1 hg1
          rw [h7] at hcon
          simp only at hcon
          by_cases hg : g = g1
          · rw [hg, assoc_unbind_self] at hcon; cases hcon
          · rw [assoc_unbind_ne g1 g _ hg] at hcon; exact hcon
        rw [h2, h7]
        simp only
        exact Function.update_noteq (fun e => hne e.symm) _ _

/-- After a flush of records that are all armed on live handles of their own, none of their
references and none of their buffers is live. -/
theorem flushSeq_released (rs : List FSUIPCDataRequest) (rt rt1 : Runtime)
    (hf : Flushable rt rs) (h : flushSeq rs rt = some rt1) :
    ∀ r ∈ rs, Held rt r → ∀ g p, r.m_oData = some g → r.m_cData = some p →
      assoc g rt1.globalRefs = none ∧ assoc p rt1.elems = none := by
  induction rs generalizing rt with
  | nil => intro r hr; cases hr
  | cons x t ih =>
    simp only [flushSeq] at h
    cases h1 : flushOne x rt with
    | none => rw [h1] at h; cases h
    | some rta =>
      rw [h1] at h
      have hft := flushable_tail x t rt rta hf h1
      intro r hr hheld g p hg hp
      by_cases hrt : r ∈ t ∧ Held rta r
      · exact ih rta hft h r hrt.1 hrt.2 g p hg hp
      · -- the handles of `r` are already dead in `rta`; the rest of the flush creates none
        have hdead : assoc g rta.globalRefs = none ∧ assoc p rta.elems = none := by
          rcases List.mem_cons.mp hr with hrx | hrx
          · subst hrx
            obtain ⟨vm, g1, p1, o, buf, k1, k2, k3, k4, k5, k6⟩ := hheld
            rw [hg] at k3; cases k3
            rw [hp] at k4; cases k4
            rw [flushOne_of_held r rt vm g p o buf k1 k2 hg hp k5 k6] at h1
            cases h1
            exact ⟨assoc_unbind_self _ _, assoc_unbind_self _ _⟩
          · exfalso
            have hnh : ¬ Held rta r := fun hh => hrt ⟨hrx, hh⟩
            rcases (List.pairwise_cons.mp hf.2).1 r hrx with hx | hx | hx
            · exact hnh (held_after_flushOne x r rt rta h1 hheld (Or.inl hx))
            · exact held_not_failing rt r hheld hx
            · exact hnh (held_after_flushOne x r rt rta h1 hheld (Or.inr hx))
        constructor
        · cases hc : assoc g rt1.globalRefs with
          | none => rfl
          | some o =>
            have := flushSeq_refs_sub t rta rt1 h g o hc
            rw [hdead.1] at this; cases this
        · cases hc : assoc p rt1.elems with
          | none => rfl
          | some b =>
            exfalso
            -- a flush creates no buffer either
            have hsub : ∀ (l : List FSUIPCDataRequest) (ra rb : Runtime),
                flushSeq l ra = some rb → assoc p ra.elems = none → assoc p rb.elems = none := by
              intro l
              induction l with
              | nil =>
                intro ra rb hl hn
                simp only [flushSeq, Option.some.injEq] at hl
                rw [← hl]; exact hn
              | cons y l ihl =>
                intro ra rb hl hn
                simp only [flushSeq] at hl
                cases hy : flushOne y ra with
                | none => rw [hy] at hl; cases hl
                | some rc =>
                  rw [hy] at hl
                  apply ihl rc rb hl
                  rcases flushOne_cases y ra rc hy with h0 | ⟨_, _, p3, _, _, _, _, _, _, _, _, h7⟩
                  · rw [h0]; exact hn
                  · rw [h7]; exact assoc_unbind_none _ _ _ hn
            rw [hsub t rta rt1 h hdead.2] at hc
            cases hc

end FSUIPCDataRequestManager

/-! ## The registry invariant -/

theorem held_mono (rt rt1 : Runtime) (r : FSUIPCDataRequest) (h : Held rt r)
    (hg : ∀ g o, assoc g rt.globalRefs = some o → assoc g rt1.globalRefs = some o)
    (hp : ∀ p b, assoc p rt.elems = some b → ∃ b1, assoc p rt1.elems = some b1) :
    Held rt1 r := by
  obtain ⟨vm, g, p, o, buf, k1, k2, k3, k4, k5, k6⟩ := h
  obtain ⟨b1, hb1⟩ := hp p buf k6
  exact ⟨vm, g, p, o, b1, k1, k2, k3, k4, hg g o k5, hb1⟩

theorem ne_fresh_of_assoc {β : Type} (l : List (Nat × β)) (k : Nat) (v : β)
    (h : assoc k l = some v) : freshHandle (l.map Prod.fst) ≠ k := by
  intro e
  rw [← e, assoc_fresh] at h
  cases h

theorem held_afterAlloc (rt : Runtime) (obj : Nat) (r : FSUIPCDataRequest) (h : Held rt r) :
    Held (rt.afterAlloc obj) r := by
  apply held_mono rt _ r h
  · intro g o hg
    simp only [Runtime.afterAlloc]
    rw [assoc_cons_ne g _ _ _ (ne_fresh_of_assoc _ g o hg)]; exact hg
  · intro p b hp
    simp only [Runtime.afterAlloc]
    rw [assoc_cons_ne p _ _ _ (ne_fresh_of_assoc _ p b hp)]; exact ⟨b, hp⟩

theorem assoc_processWrites (writes : Nat → List jbyte → List jbyte) (rt : Runtime) (p : Nat) :
    assoc p (processWrites writes rt).elems =
      (assoc p rt.elems).map fun buf => writeInto buf (writes p buf) := by
  simp only [processWrites]
  exact assoc_map_val (fun k v => writeInto v (writes k v)) p rt.elems

theorem held_processWrites (writes : Nat → List jbyte → List jbyte) (rt : Runtime)
    (r : FSUIPCDataRequest) (h : Held rt r) : Held (processWrites writes rt) r := by
  apply held_mono rt _ r h
  · intro g o hg; exact hg
  · intro p b hp
    rw [assoc_processWrites, hp]; exact ⟨_, rfl⟩

theorem held_afterSync (writes : Nat → List jbyte → List jbyte) (rt : Runtime) (obj : Nat)
    (r : FSUIPCDataRequest) (h : Held rt r) : Held (rt.afterSync obj writes) r := by
  apply held_mono rt _ r h
  · intro g o hg; exact hg
  · intro p b hp
    simp only [Runtime.afterSync]
    rw [assoc_processWrites, hp]; exact ⟨_, rfl⟩

theorem held_allocated (rt : Runtime) (obj : Nat) (vm : JavaVM) (he : vm.GetEnv = 0) :
    Held (rt.afterAlloc obj) (allocated (some vm) rt) :=
  ⟨vm, _, _, obj, rt.arrays obj, rfl, he, rfl, rfl, assoc_cons_self _ _ _, assoc_cons_self _ _ _⟩

theorem apart_allocated (rt : Runtime) (v : Option JavaVM) (r : FSUIPCDataRequest)
    (h : Held rt r) : Apart r (allocated v rt) := by
  obtain ⟨vm, g, p, o, buf, k1, k2, k3, k4, k5, k6⟩ := h
  constructor
  · rw [k3]; simp only [allocated]
    intro e
    exact ne_fresh_of_assoc _ g o k5 (Option.some.inj e).symm
  · rw [k4]; simp only [allocated]
    intro e
    exact ne_fresh_of_assoc _ p buf k6 (Option.some.inj e).symm

theorem flushable_of_held (rt : Runtime) (rs : List FSUIPCDataRequest)
    (h : ∀ r ∈ rs, Held rt r) (hp : rs.Pairwise Apart) : Flushable rt rs :=
  ⟨fun r hr => Or.inr (h r hr), hp.imp fun hab => Or.inr (Or.inr hab)⟩

/-- In a state that satisfies the invariant `close` returns, with the runtime the flush
leaves and an empty Registry. -/
theorem close_of_inv (s : Bridge) (hi : Inv s) :
    ∃ rt1, FSUIPCDataRequestManager.flushSeq s.pending s.rt = some rt1 ∧
      FSUIPCWrapper_close s =
        some { s with oFSUIPCDataRequestManager := { m_arRequests := [] }, rt := rt1 } := by
  obtain ⟨rt1, h⟩ := FSUIPCDataRequestManager.flushSeq_defined s.pending s.rt
    (flushable_of_held _ _ hi.1 hi.2)
  refine ⟨rt1, h, ?_⟩
  unfold Bridge.pending at h
  simp only [FSUIPCWrapper_close, FSUIPCDataRequestManager.releaseAll_eq_flushSeq, h]
  rfl

/-- In a state that satisfies the invariant `process` returns the status of
`FSUIPC_Process`, with the runtime the flush leaves after the library wrote, and an empty
Registry. -/
theorem process_of_inv (s : Bridge) (hi : Inv s) (lib : LibReply)
    (writes : Nat → List jbyte → List jbyte) :
    ∃ rt1, FSUIPCDataRequestManager.flushSeq s.pending (processWrites writes s.rt) = some rt1 ∧
      FSUIPCWrapper_process s lib writes =
        some (lib.ret, { s with iResult := lib.result,
                                oFSUIPCDataRequestManager := { m_arRequests := [] },
                                rt := rt1 }) := by
  obtain ⟨rt1, h⟩ := FSUIPCDataRequestManager.flushSeq_defined s.pending
    (processWrites writes s.rt)
    (flushable_of_held _ _ (fun r hr => held_processWrites writes s.rt r (hi.1 r hr)) hi.2)
  refine ⟨rt1, h, ?_⟩
  unfold Bridge.pending at h
  simp only [FSUIPCWrapper_process, FSUIPCDataRequestManager.releaseAll_eq_flushSeq, h]
  rfl

theorem inv_of_read (s s1 : Bridge) (hi : Inv s) (aOffset aSize : Int) (aData : Option Nat)
    (granted : Bool) (lib : LibReply) (ret : Int)
    (h : FSUIPCWrapper_read s aOffset aSize aData granted lib = some (ret, s1)) : Inv s1 := by
  rcases read_cases s aOffset aSize aData granted lib with
    ⟨_, h1⟩ | ⟨vm, obj, _, _, _, _, _, h1⟩ | ⟨vm, obj, hvm, he, _, _, _, h1⟩
  · rw [h1] at h; cases h; exact hi
  · rw [h1] at h; cases h
    exact ⟨fun r hr => held_afterAlloc s.rt obj r (hi.1 r hr), hi.2⟩
  · rw [h1] at h; cases h
    constructor
    · intro r hr
      simp only [Bridge.pending, List.mem_append, List.mem_singleton] at hr
      rcases hr with hr | hr
      · exact held_afterAlloc s.rt obj r (hi.1 r hr)
      · rw [hr, hvm]; exact held_allocated s.rt obj vm he
    · simp only [Bridge.pending]
      rw [List.pairwise_append]
      refine ⟨hi.2, List.pairwise_singleton _ _, ?_⟩
      intro a ha b hb
      rw [List.mem_singleton] at hb
      rw [hb]
      exact apart_allocated s.rt _ a (hi.1 a ha)

theorem inv_of_readData (s s1 : Bridge) (hi : Inv s) (aOffset aSize : Int)
    (aData : Option Nat) (granted : Bool) (lib1 lib2 : LibReply)
    (writes : Nat → List jbyte → List jbyte) (ret : Int)
    (h : FSUIPCWrapper_readData s aOffset aSize aData granted lib1 lib2 writes =
      some (ret, s1)) : Inv s1 := by
  have hd := (readData_defined_iff s aOffset aSize aData granted lib1 lib2 writes).mp
    (by rw [h]; rfl)
  obtain ⟨obj, rfl⟩ := Option.ne_none_iff_exists'.mp hd.1
  rw [hd.2, readData_of_pinned] at h
  cases h
  exact ⟨fun r hr => held_afterSync writes s.rt obj r (hi.1 r hr), hi.2⟩

theorem inv_empty (s : Bridge) (h : s.pending = []) : Inv s := by
  constructor
  · intro r hr; rw [h] at hr; cases hr
  · rw [h]; exact List.Pairwise.nil

theorem inv_step (s s1 : Bridge) (c : Call) (hi : Inv s) (h : step s c = some s1) : Inv s1 := by
  cases c with
  | open_ f lib =>
    simp only [step, FSUIPCWrapper_open, Option.map_some', Option.some.injEq] at h
    subst h; exact hi
  | close =>
    obtain ⟨rt1, _, h2⟩ := close_of_inv s hi
    simp only [step, h2, Option.some.injEq] at h
    subst h; exact inv_empty _ rfl
  | process lib w =>
    obtain ⟨rt1, _, h2⟩ := process_of_inv s hi lib w
    simp only [step, h2, Option.map_some', Option.some.injEq] at h
    subst h; exact inv_empty _ rfl
  | read o n a g lib =>
    simp only [step, Option.map_eq_some'] at h
    obtain ⟨x, hx, rfl⟩ := h
    exact inv_of_read s x.2 hi o n a g lib x.1 hx
  | write o n a g lib =>
    simp only [step, Option.map_eq_some', write_eq_read] at h
    obtain ⟨x, hx, rfl⟩ := h
    exact inv_of_read s x.2 hi o n a g lib x.1 hx
  | readData o n a g l1 l2 w =>
    simp only [step, Option.map_eq_some'] at h
    obtain ⟨x, hx, rfl⟩ := h
    exact inv_of_readData s x.2 hi o n a g l1 l2 w x.1 hx
  | writeData o n a g l1 l2 w =>
    simp only [step, Option.map_eq_some', writeData_eq_readData] at h
    obtain ⟨x, hx, rfl⟩ := h
    exact inv_of_readData s x.2 hi o n a g l1 l2 w x.1 hx

theorem reachable_inv (s : Bridge) (h : Reachable s) : Inv s := by
  induction h with
  | init s h => exact inv_empty s h
  | step s s1 c _ h ih => exact inv_step s s1 c ih h

/-- The flush of a sequence of records armed on live handles of their own, seen from one of
its records `r`: the records before it are flushed without touching the handles of `r`, then
`release()` on `r` succeeds and copies its buffer into its array, then the records after it
are flushed; the array keeps these contents unless a later record refers to the same
array. -/
theorem flush_split (rt : Runtime) (pre post : List FSUIPCDataRequest) (r : FSUIPCDataRequest)
    (hall : ∀ x ∈ pre ++ r :: post, Held rt x) (hpw : (pre ++ r :: post).Pairwise Apart)
    (g p obj : Nat) (buf : List jbyte) (hg : r.m_oData = some g) (hp : r.m_cData = some p)
    (hgo : assoc g rt.globalRefs = some obj) (hpb : assoc p rt.elems = some buf) :
    ∃ rta rtb rt1,
      FSUIPCDataRequestManager.flushSeq pre rt = some rta ∧
      r.release rta = some (true, { r with m_cData := none }, rtb) ∧
      rtb.arrays obj = buf ∧
      FSUIPCDataRequestManager.flushSeq post rtb = some rt1 ∧
      FSUIPCDataRequestManager.flushSeq (pre ++ r :: post) rt = some rt1 ∧
      ((∀ x ∈ post, ∀ g1, x.m_oData = some g1 → assoc g1 rt.globalRefs ≠ some obj) →
        rt1.arrays obj = buf) := by
  obtain ⟨rt1, htot⟩ := FSUIPCDataRequestManager.flushSeq_defined _ rt
    (flushable_of_held rt _ hall hpw)
  have htot0 := htot
  rw [FSUIPCDataRequestManager.flushSeq_append] at htot
  rw [List.pairwise_append] at hpw
  obtain ⟨_, _, hcross⟩ := hpw
  cases hpre : FSUIPCDataRequestManager.flushSeq pre rt with
  | none => rw [hpre] at htot; cases htot
  | some rta =>
    rw [hpre] at htot
    simp only [Option.some_bind, FSUIPCDataRequestManager.flushSeq] at htot
    have hrheld : Held rt r := hall r (by simp)
    obtain ⟨vm, g0, p0, o0, b0, k1, k2, k3, k4, _, _⟩ := hrheld
    rw [hg] at k3; cases k3
    rw [hp] at k4; cases k4
    have hga : assoc g rta.globalRefs = some obj := by
      rw [FSUIPCDataRequestManager.flushSeq_refs_frame pre rt rta hpre g]
      · exact hgo
      · intro x hx e
        exact (hcross x hx r (List.mem_cons_self _ _)).1 (by rw [e, hg])
    have hpa : assoc p rta.elems = some buf := by
      rw [FSUIPCDataRequestManager.flushSeq_elems_frame pre rt rta hpre p]
      · exact hpb
      · intro x hx e
        exact (hcross x hx r (List.mem_cons_self _ _)).2 (by rw [e, hp])
    have hrel := FSUIPCDataRequest.release_of_held r rta vm g p obj buf k1 k2 hg hp hga hpa
    have hone := FSUIPCDataRequestManager.flushOne_of_held r rta vm g p obj buf k1 k2 hg hp
      hga hpa
    rw [hone] at htot
    simp only at htot
    refine ⟨rta, _, rt1, rfl, hrel, ?_, htot, htot0, ?_⟩
    · simp
    · intro hno
      rw [FSUIPCDataRequestManager.flushSeq_arrays_frame post _ rt1 htot obj]
      · simp
      · intro x hx g1 hg1 hcon
        apply hno x hx g1 hg1
        simp only at hcon
        by_cases hgg : g = g1
        · rw [hgg, assoc_unbind_self] at hcon; cases hcon
        · rw [assoc_unbind_ne g1 g _ hgg] at hcon
          exact FSUIPCDataRequestManager.flushSeq_refs_sub pre rt rta hpre g1 obj hcon

/-! ## Leaked handles stay leaked -/

theorem leaked_step (g p obj : Nat) (s s1 : Bridge) (c : Call) (hi : Inv s)
    (hl : Leaked g p obj s) (h : step s c = some s1) : Leaked g p obj s1 := by
  obtain ⟨hg, hp, hpend⟩ := hl
  obtain ⟨b, hpb⟩ := Option.isSome_iff_exists.mp hp
  have hread : ∀ (o n : Int) (a : Option Nat) (gr : Bool) (lib : LibReply) (ret : Int),
      FSUIPCWrapper_read s o n a gr lib = some (ret, s1) → Leaked g p obj s1 := by
    intro o n a gr lib ret hx
    have hga : ∀ ob, assoc g (s.rt.afterAlloc ob).globalRefs = some obj := by
      intro ob
      simp only [Runtime.afterAlloc]
      rw [assoc_cons_ne g _ _ _ (ne_fresh_of_assoc _ g obj hg)]; exact hg
    have hpa : ∀ ob, (assoc p (s.rt.afterAlloc ob).elems).isSome := by
      intro ob
      simp only [Runtime.afterAlloc]
      rw [assoc_cons_ne p _ _ _ (ne_fresh_of_assoc _ p b hpb)]; exact hp
    rcases read_cases s o n a gr lib with
      ⟨_, h1⟩ | ⟨vm, ob, _, _, _, _, _, h1⟩ | ⟨vm, ob, hvm, he, _, _, _, h1⟩
    · rw [h1] at hx; cases hx; exact ⟨hg, hp, hpend⟩
    · rw [h1] at hx; cases hx; exact ⟨hga ob, hpa ob, hpend⟩
    · rw [h1] at hx; cases hx
      refine ⟨hga ob, hpa ob, ?_⟩
      intro r hr
      simp only [Bridge.pending, List.mem_append, List.mem_singleton] at hr
      rcases hr with hr | hr
      · exact hpend r hr
      · rw [hr]
        simp only [allocated]
        exact ⟨fun e => ne_fresh_of_assoc _ g obj hg (Option.some.inj e),
          fun e => ne_fresh_of_assoc _ p b hpb (Option.some.inj e)⟩
  have hsync : ∀ (o n : Int) (a : Option Nat) (gr : Bool) (l1 l2 : LibReply)
      (w : Nat → List jbyte → List jbyte) (ret : Int),
      FSUIPCWrapper_readData s o n a gr l1 l2 w = some (ret, s1) → Leaked g p obj s1 := by
    intro o n a gr l1 l2 w ret hx
    have hd := (readData_defined_iff s o n a gr l1 l2 w).mp (by rw [hx]; rfl)
    obtain ⟨ob, rfl⟩ := Option.ne_none_iff_exists'.mp hd.1
    rw [hd.2, readData_of_pinned] at hx
    cases hx
    refine ⟨hg, ?_, hpend⟩
    simp only [Runtime.afterSync]
    rw [assoc_processWrites, hpb]; rfl
  cases c with
  | open_ f lib =>
    simp only [step, FSUIPCWrapper_open, Option.map_some', Option.some.injEq] at h
    subst h; exact ⟨hg, hp, hpend⟩
  | close =>
    obtain ⟨rt1, h1, h2⟩ := close_of_inv s hi
    simp only [step, h2, Option.some.injEq] at h
    subst h
    refine ⟨?_, ?_, fun r hr => by cases hr⟩
    · simp only
      rw [FSUIPCDataRequestManager.flushSeq_refs_frame _ _ _ h1 g (fun r hr => (hpend r hr).1)]
      exact hg
    · simp only
      rw [FSUIPCDataRequestManager.flushSeq_elems_frame _ _ _ h1 p (fun r hr => (hpend r hr).2)]
      exact hp
  | process lib w =>
    obtain ⟨rt1, h1, h2⟩ := process_of_inv s hi lib w
    simp only [step, h2, Option.map_some', Option.some.injEq] at h
    subst h
    refine ⟨?_, ?_, fun r hr => by cases hr⟩
    · simp only
      rw [FSUIPCDataRequestManager.flushSeq_refs_frame _ _ _ h1 g (fun r hr => (hpend r hr).1)]
      exact hg
    · simp only
      rw [FSUIPCDataRequestManager.flushSeq_elems_frame _ _ _ h1 p (fun r hr => (hpend r hr).2),
        assoc_processWrites, hpb]
      rfl
  | read o n a gr lib =>
    simp only [step, Option.map_eq_some'] at h
    obtain ⟨x, hx, rfl⟩ := h
    exact hread o n a gr lib x.1 hx
  | write o n a gr lib =>
    simp only [step, Option.map_eq_some', write_eq_read] at h
    obtain ⟨x, hx, rfl⟩ := h
    exact hread o n a gr lib x.1 hx
  | readData o n a gr l1 l2 w =>
    simp only [step, Option.map_eq_some'] at h
    obtain ⟨x, hx, rfl⟩ := h
    exact hsync o n a gr l1 l2 w x.1 hx
  | writeData o n a gr l1 l2 w =>
    simp only [step, Option.map_eq_some', writeData_eq_readData] at h
    obtain ⟨x, hx, rfl⟩ := h
    exact hsync o n a gr l1 l2 w x.1 hx

theorem leaked_run (g p obj : Nat) (cs : List Call) (s s2 : Bridge) (hi : Inv s)
    (hl : Leaked g p obj s) (h : run s cs = some s2) : Leaked g p obj s2 := by
  induction cs generalizing s with
  | nil => simp only [run, Option.some.injEq] at h; subst h; exact hl
  | cons c t ih =>
    simp only [run] at h
    cases hc : step s c with
    | none => rw [hc] at h; cases h
    | some sa =>
      rw [hc] at h
      exact ih sa (inv_step s sa c hi hc) (leaked_step g p obj s sa c hi hl hc) h

/-- The handles a successful `alloc` creates are leaked when the record is not stored. -/
theorem leaked_afterAlloc (s : Bridge) (hi : Inv s) (obj iRes : Nat) :
    Leaked (freshHandle (s.rt.globalRefs.map Prod.fst)) (freshHandle (s.rt.elems.map Prod.fst))
      obj { s with iResult := iRes, rt := s.rt.afterAlloc obj } := by
  refine ⟨assoc_cons_self _ _ _, ?_, ?_⟩
  · simp only [Runtime.afterAlloc, assoc_cons_self]; rfl
  · intro r hr
    obtain ⟨vm, g, p, o, buf, k1, k2, k3, k4, k5, k6⟩ := hi.1 r hr
    rw [k3, k4]
    exact ⟨fun e => ne_fresh_of_assoc _ g o k5 (Option.some.inj e).symm,
      fun e => ne_fresh_of_assoc _ p buf k6 (Option.some.inj e).symm⟩

/-! ## A flush does not see handles it does not own -/

theorem unbind_cons_ne {β : Type} (k k1 : Nat) (v : β) (l : List (Nat × β)) (h : k1 ≠ k) :
    unbind k ((k1, v) :: l) = (k1, v) :: unbind k l := by
  simp [unbind, h]

namespace FSUIPCDataRequestManager

theorem flushOne_extend (r : FSUIPCDataRequest) (rt : Runtime) (eg : Nat × Nat)
    (ee : Nat × List jbyte) (hg : r.m_oData ≠ some eg.1) (hp : r.m_cData ≠ some ee.1) :
    flushOne r (rt.extend eg ee) = (flushOne r rt).map fun x => x.extend eg ee := by
  by_cases hf : Failing r
  · rw [flushOne_of_failing r _ hf, flushOne_of_failing r _ hf]; rfl
  · -- armed, with an environment
    have ha : r.armed := by
      by_contra hna; exact hf (Or.inl hna)
    obtain ⟨h1, h2, h3⟩ := ha
    obtain ⟨vm, hvm⟩ := Option.ne_none_iff_exists'.mp h1
    obtain ⟨g, hgg⟩ := Option.ne_none_iff_exists'.mp h2
    obtain ⟨p, hpp⟩ := Option.ne_none_iff_exists'.mp h3
    have he : vm.GetEnv = 0 := by
      by_contra hne; exact hf (Or.inr ⟨vm, hvm, hne⟩)
    have hg1 : eg.1 ≠ g := fun e => hg (by rw [hgg, e])
    have hp1 : ee.1 ≠ p := fun e => hp (by rw [hpp, e])
    have hag : assoc g (rt.extend eg ee).globalRefs = assoc g rt.globalRefs := by
      obtain ⟨a, b⟩ := eg
      exact assoc_cons_ne g a b _ hg1
    have hap : assoc p (rt.extend eg ee).elems = assoc p rt.elems := by
      obtain ⟨a, b⟩ := ee
      exact assoc_cons_ne p a b _ hp1
    cases hgo : assoc g rt.globalRefs with
    | none =>
      have e1 : flushOne r rt = none := by
        obtain ⟨o1, n, c, d, v⟩ := r
        simp only at hvm hgg hpp
        subst hvm hgg hpp
        simp [flushOne, FSUIPCDataRequest.release, he, Runtime.ReleaseByteArrayElements,
          Runtime.resolve, hgo]
      have e2 : flushOne r (rt.extend eg ee) = none := by
        rw [hgo] at hag
        obtain ⟨o1, n, c, d, v⟩ := r
        simp only at hvm hgg hpp
        subst hvm hgg hpp
        simp [flushOne, FSUIPCDataRequest.release, he, Runtime.ReleaseByteArrayElements,
          Runtime.resolve, hag]
      rw [e1, e2]; rfl
    | some o =>
      cases hpb : assoc p rt.elems with
      | none =>
        have e1 : flushOne r rt = none := by
          obtain ⟨o1, n, c, d, v⟩ := r
          simp only at hvm hgg hpp
          subst hvm hgg hpp
          simp [flushOne, FSUIPCDataRequest.release, he, Runtime.ReleaseByteArrayElements,
            Runtime.resolve, hgo, hpb]
        have e2 : flushOne r (rt.extend eg ee) = none := by
          rw [hgo] at hag
          rw [hpb] at hap
          obtain ⟨o1, n, c, d, v⟩ := r
          simp only at hvm hgg hpp
          subst hvm hgg hpp
          simp [flushOne, FSUIPCDataRequest.release, he, Runtime.ReleaseByteArrayElements,
            Runtime.resolve, hag, hap]
        rw [e1, e2]; rfl
      | some buf =>
        rw [hgo] at hag
        rw [hpb] at hap
        rw [flushOne_of_held r rt vm g p o buf hvm he hgg hpp hgo hpb,
          flushOne_of_held r _ vm g p o buf hvm he hgg hpp hag hap]
        obtain ⟨a1, b1⟩ := eg
        obtain ⟨a2, b2⟩ := ee
        simp only [Runtime.extend, Option.map_some', Option.some.injEq]
        rw [unbind_cons_ne g a1 b1 _ hg1, unbind_cons_ne p a2 b2 _ hp1]

theorem flushSeq_extend (rs : List FSUIPCDataRequest) (rt : Runtime) (eg : Nat × Nat)
    (ee : Nat × List jbyte)
    (h : ∀ r ∈ rs, r.m_oData ≠ some eg.1 ∧ r.m_cData ≠ some ee.1) :
    flushSeq rs (rt.extend eg ee) = (flushSeq rs rt).map fun x => x.extend eg ee := by
  induction rs generalizing rt with
  | nil => rfl
  | cons r t ih =>
    have hr := h r (List.mem_cons_self _ _)
    simp only [flushSeq, flushOne_extend r rt eg ee hr.1 hr.2]
    cases flushOne r rt with
    | none => rfl
    | some rta =>
      simp only [Option.map_some']
      exact ih rta (fun x hx => h x (List.mem_cons_of_mem _ hx))

end FSUIPCDataRequestManager

/-! ## C5: release on an unarmed record; release happens at most once -/

/-- C5: `release()` on a record that is not armed reports failure and leaves the record and
the runtime (arrays, live global references, native buffers) exactly as they were; a
successful `release()` leaves the record unarmed; and in any sequence of `release()` calls on
one record (the destructor call included) every call after the first reports failure, the
record and the runtime at the end being those after the first call, so the copy-back and the
deletion of the global reference happen at most once. -/
theorem C5_release_unarmed_fails_and_release_once (r : FSUIPCDataRequest) (rt : Runtime)
    (n : Nat) :
    (¬ r.armed → r.release rt = some (false, r, rt)) ∧
    (∀ b r1 rt1, r.release rt = some (b, r1, rt1) →
      (b = true → ¬ r1.armed) ∧
      r1.destroy rt1 = some rt1 ∧
      releaseTimes (n + 1) r rt = some (b :: List.replicate n false, r1, rt1)) := by
  refine ⟨FSUIPCDataRequest.release_of_not_armed r rt, ?_⟩
  intro b r1 rt1 h
  have h2 := FSUIPCDataRequest.release_after_release r r1 rt rt1 b h
  refine ⟨?_, ?_, ?_⟩
  · intro hb
    rcases FSUIPCDataRequest.release_cases r r1 rt rt1 b h with ⟨hf, _, _⟩ | ⟨_, vm, g, p, o, buf, _, _, _, _, _, _, hr, _⟩
    · rw [hb] at hf; cases hf
    · rw [hr]; simp [FSUIPCDataRequest.armed]
  · simp [FSUIPCDataRequest.destroy, h2]
  · simp [releaseTimes, h, releaseTimes_after_release n r r1 rt rt1 b h]

/-- C5 at concrete records: a never-allocated record, and an armed record released three
times in a row (one copy-back, then two failures). -/
theorem C5_release_unarmed_fails_and_release_once_witness :
    (¬ FSUIPCDataRequest.mk0.armed ∧
      FSUIPCDataRequest.mk0.release rtHeld = some (false, FSUIPCDataRequest.mk0, rtHeld)) ∧
    (∃ r1 rt1, recHeld.release rtHeld = some (true, r1, rt1) ∧ rt1.arrays 7 = [1, 2, 3, 4] ∧
      rt1.globalRefs = [] ∧ ¬ r1.armed ∧ r1.destroy rt1 = some rt1 ∧
      releaseTimes 3 recHeld rtHeld = some ([true, false, false], r1, rt1)) := by
  have hu : ¬ FSUIPCDataRequest.mk0.armed := by decide
  have hr := FSUIPCDataRequest.release_of_held recHeld rtHeld vmOk 1 1 7 [1, 2, 3, 4]
    rfl rfl rfl rfl rfl rfl
  have h := (C5_release_unarmed_fails_and_release_once recHeld rtHeld 2).2 _ _ _ hr
  refine ⟨⟨hu, (C5_release_unarmed_fails_and_release_once _ rtHeld 0).1 hu⟩, _, _, hr, ?_, ?_,
    h.1 rfl, h.2.1, h.2.2⟩
  · simp
  · rfl

/-! ## C7: a failing alloc -/

/-- C7: for every record that is unarmed when `alloc` is called (as is the freshly
constructed record of every call site) and every caller buffer, `alloc` returns, and if it
fails then the record is unarmed afterwards, a following `release()` returns failure and
changes nothing, and the runtime (so the live global references and their number) is what it
was before the call. On a precondition failure (no `JavaVM`, null array, `GetEnv` failing)
the record is untouched: no reference was taken at all. When the pin is refused the
reference `NewGlobalRef` returned, recorded in `m_oData`, is no longer live: it has been
deleted. -/
theorem C7_alloc_failure_leaves_record_unarmed (r : FSUIPCDataRequest) (jData : Option Nat)
    (granted : Bool) (rt : Runtime) (hu : ¬ r.armed) :
    ∃ b r1 rt1, r.alloc jData granted rt = some (b, r1, rt1) ∧
      (b = false →
        ¬ r1.armed ∧ r1.release rt1 = some (false, r1, rt1) ∧
        rt1 = rt ∧ rt1.globalRefs.length = rt.globalRefs.length ∧
        ((r.m_oJavaVM = none ∨ jData = none ∨ ∃ vm, r.m_oJavaVM = some vm ∧ vm.GetEnv ≠ 0) →
          r1 = r) ∧
        (∀ vm obj, r.m_oJavaVM = some vm → vm.GetEnv = 0 → jData = some obj →
          ∃ g rtg, rt.NewGlobalRef (.localRef obj) = some (g, rtg) ∧
            assoc g rtg.globalRefs = some obj ∧
            rtg.globalRefs.length = rt.globalRefs.length + 1 ∧
            r1.m_oData = some g ∧ assoc g rt1.globalRefs = none)) := by
  rcases FSUIPCDataRequest.alloc_cases r jData granted rt with
    ⟨hpre, h⟩ | ⟨vm, obj, hvm, he, hj, hg, h⟩ | ⟨vm, obj, hvm, he, hj, hg, h⟩
  · refine ⟨false, r, rt, h, fun _ => ⟨hu, FSUIPCDataRequest.release_of_not_armed r rt hu, rfl,
      rfl, fun _ => rfl, ?_⟩⟩
    intro vm obj hvm he hj
    rcases hpre with h1 | h1 | ⟨vm1, h1, h2⟩
    · rw [h1] at hvm; cases hvm
    · rw [h1] at hj; cases hj
    · rw [h1] at hvm; cases hvm; exact absurd he h2
  · have hna : ¬ ({ r with m_oData := some (freshHandle (rt.globalRefs.map Prod.fst)),
                           m_cData := none } : FSUIPCDataRequest).armed := by
      simp [FSUIPCDataRequest.armed]
    refine ⟨false, _, rt, h, fun _ => ⟨hna, FSUIPCDataRequest.release_of_not_armed _ rt hna,
      rfl, rfl, ?_, ?_⟩⟩
    · intro hpre
      rcases hpre with h1 | h1 | ⟨vm1, h1, h2⟩
      · rw [h1] at hvm; cases hvm
      · rw [h1] at hj; cases hj
      · rw [h1] at hvm; cases hvm; exact absurd he h2
    · intro vm1 obj1 _ _ hj1
      rw [hj] at hj1; cases hj1
      exact ⟨_, _, FSUIPCDataRequest.newGlobalRef_local rt obj, assoc_cons_self _ _ _, rfl, rfl,
        assoc_fresh _⟩
  · exact ⟨true, _, _, h, fun hb => by cases hb⟩

/-- C7 at concrete inputs: a freshly constructed record whose pin is refused, and a freshly
constructed record given a null array. -/
theorem C7_alloc_failure_leaves_record_unarmed_witness :
    ¬ (FSUIPCDataRequest.mk_ (some vmOk)).armed ∧
    (∃ r1, (FSUIPCDataRequest.mk_ (some vmOk)).alloc (some 7) false rtHeld =
        some (false, r1, rtHeld) ∧
      ¬ r1.armed ∧ r1.release rtHeld = some (false, r1, rtHeld) ∧
      r1.m_oData = some 2 ∧ assoc 2 rtHeld.globalRefs = none) ∧
    (∃ r1, (FSUIPCDataRequest.mk_ (some vmOk)).alloc none true rtHeld =
        some (false, r1, rtHeld) ∧
      r1 = FSUIPCDataRequest.mk_ (some vmOk) ∧ ¬ r1.armed ∧
      r1.release rtHeld = some (false, r1, rtHeld)) := by
  have hu : ¬ (FSUIPCDataRequest.mk_ (some vmOk)).armed := by decide
  refine ⟨hu, ?_, ?_⟩
  · obtain ⟨b, r1, rt1, h, hb⟩ :=
      C7_alloc_failure_leaves_record_unarmed (FSUIPCDataRequest.mk_ (some vmOk)) (some 7) false
        rtHeld hu
    have h0 := FSUIPCDataRequest.alloc_of_pin_refused (FSUIPCDataRequest.mk_ (some vmOk)) 7
      rtHeld vmOk rfl rfl
    rw [h0] at h
    simp only [Option.some.injEq, Prod.mk.injEq] at h
    obtain ⟨hb1, hr1, hrt1⟩ := h
    obtain ⟨h1, h2, _, _, _, _⟩ := hb hb1.symm
    subst hrt1
    refine ⟨r1, ?_, h1, h2, ?_, by decide⟩
    · rw [h0, hr1]
    · rw [← hr1]; rfl
  · obtain ⟨b, r1, rt1, h, hb⟩ :=
      C7_alloc_failure_leaves_record_unarmed (FSUIPCDataRequest.mk_ (some vmOk)) none true
        rtHeld hu
    have h0 : (FSUIPCDataRequest.mk_ (some vmOk)).alloc none true rtHeld =
        some (false, FSUIPCDataRequest.mk_ (some vmOk), rtHeld) := rfl
    rw [h0] at h
    simp only [Option.some.injEq, Prod.mk.injEq] at h
    obtain ⟨hb1, hr1, hrt1⟩ := h
    obtain ⟨h1, h2, _, _, h5, _⟩ := hb hb1.symm
    subst hrt1
    refine ⟨r1, ?_, h5 (Or.inr (Or.inl rfl)), h1, h2⟩
    rw [h0, hr1]

/-! ## C4: releaseAll -/

/-- C4: `releaseAll` is the in-order flush of every pending record: its result is that of
`flushSeq` on the whole sequence with the vector cleared; for every record `r` of the
sequence, `releaseAll` returns exactly when the records before `r` are flushed, then
`release()` is invoked on `r` (whatever it reports), then the records after `r` are flushed,
and then pending is empty; a record whose `release()` fails is passed over without effect on
the others; on a sequence whose records each either fail or are armed on live handles of
their own, `releaseAll` returns with pending empty; and on an empty Registry it changes
nothing. -/
theorem C4_releaseAll_every_record_in_order (m : FSUIPCDataRequestManager) (rt : Runtime) :
    m.releaseAll rt =
      ((FSUIPCDataRequestManager.flushSeq m.m_arRequests rt).map
        fun rt1 => ({ m_arRequests := [] }, rt1)) ∧
    (∀ pre r post, m.m_arRequests = pre ++ r :: post → ∀ m1 rt1,
      (m.releaseAll rt = some (m1, rt1) ↔
        m1.m_arRequests = [] ∧ ∃ rta b r1 rtb,
          FSUIPCDataRequestManager.releaseAll { m_arRequests := pre } rt =
            some ({ m_arRequests := [] }, rta) ∧
          r.release rta = some (b, r1, rtb) ∧
          FSUIPCDataRequestManager.releaseAll { m_arRequests := post } rtb =
            some ({ m_arRequests := [] }, rt1))) ∧
    (∀ pre r post, m.m_arRequests = pre ++ r :: post → Failing r →
      m.releaseAll rt = FSUIPCDataRequestManager.releaseAll { m_arRequests := pre ++ post } rt) ∧
    (Flushable rt m.m_arRequests → ∃ rt1, m.releaseAll rt = some ({ m_arRequests := [] }, rt1)) ∧
    (m.m_arRequests = [] → m.releaseAll rt = some (m, rt)) := by
  refine ⟨FSUIPCDataRequestManager.releaseAll_eq_flushSeq m rt, ?_, ?_, ?_, ?_⟩
  · intro pre r post hm m1 rt1
    simp only [FSUIPCDataRequestManager.releaseAll_eq_flushSeq, hm,
      FSUIPCDataRequestManager.flushSeq_append, FSUIPCDataRequestManager.flushSeq,
      FSUIPCDataRequestManager.flushOne_eq]
    cases h1 : FSUIPCDataRequestManager.flushSeq pre rt with
    | none => simp
    | some rta =>
      cases h2 : r.release rta with
      | none => simp [h2]
      | some x =>
        obtain ⟨b, r1, rtb⟩ := x
        cases h3 : FSUIPCDataRequestManager.flushSeq post rtb with
        | none => simp [h2, h3]
        | some rtc =>
          obtain ⟨l⟩ := m1
          simp only [Option.some_bind, h2, Option.map_some', h3, Option.some.injEq,
            Prod.mk.injEq, FSUIPCDataRequestManager.mk.injEq]
          constructor
          · rintro ⟨h4, h5⟩
            refine ⟨h4.symm, rta, b, r1, rtb, ⟨trivial, rfl⟩, h2, ?_⟩
            rw [h3, h5]; rfl
          · rintro ⟨h4, rta1, b1, r2, rtb1, h5, h6, h7⟩
            obtain ⟨_, h5⟩ := h5
            subst h5
            rw [h2] at h6
            simp only [Option.some.injEq, Prod.mk.injEq] at h6
            obtain ⟨_, _, h6⟩ := h6
            subst h6
            rw [h3] at h7
            simp only [Option.map_some', Option.some.injEq, Prod.mk.injEq, true_and] at h7
            exact ⟨h4.symm, h7⟩
  · intro pre r post hm hf
    simp only [FSUIPCDataRequestManager.releaseAll_eq_flushSeq, hm,
      FSUIPCDataRequestManager.flushSeq_append, FSUIPCDataRequestManager.flushSeq]
    cases h1 : FSUIPCDataRequestManager.flushSeq pre rt with
    | none => rfl
    | some rta =>
      simp [FSUIPCDataRequestManager.flushOne_of_failing r rta hf]
  · intro hf
    obtain ⟨rt1, h⟩ := FSUIPCDataRequestManager.flushSeq_defined m.m_arRequests rt hf
    exact ⟨rt1, by rw [FSUIPCDataRequestManager.releaseAll_eq_flushSeq, h]; rfl⟩
  · intro hm
    obtain ⟨l⟩ := m
    simp only at hm
    subst hm
    rfl

/-- C4 at a concrete registry: a never-allocated record (its `release()` fails) followed by
an armed one; the flush goes past the first and copies the second one back. -/
theorem C4_releaseAll_every_record_in_order_witness :
    Flushable rtHeld mgrMixed.m_arRequests ∧
    Failing FSUIPCDataRequest.mk0 ∧
    ∃ rt1, mgrMixed.releaseAll rtHeld = some ({ m_arRequests := [] }, rt1) ∧
      rt1.arrays 7 = [1, 2, 3, 4] ∧ rt1.globalRefs = [] ∧ rt1.elems = [] ∧
      mgrMixed.releaseAll rtHeld =
        FSUIPCDataRequestManager.releaseAll { m_arRequests := [] ++ [recHeld] } rtHeld := by
  have hfail : Failing FSUIPCDataRequest.mk0 := Or.inl (by decide)
  have hheld : Held rtHeld recHeld := ⟨vmOk, 1, 1, 7, [1, 2, 3, 4], rfl, rfl, rfl, rfl, rfl, rfl⟩
  have hfl : Flushable rtHeld mgrMixed.m_arRequests := by
    refine ⟨?_, ?_⟩
    · intro r hr
      simp only [mgrMixed, List.mem_cons, List.mem_singleton, List.not_mem_nil, or_false] at hr
      rcases hr with rfl | rfl
      · exact Or.inl hfail
      · exact Or.inr hheld
    · simp only [mgrMixed, List.pairwise_cons, List.mem_singleton, List.not_mem_nil,
        List.Pairwise.nil, and_true, forall_eq, false_implies, implies_true]
      exact Or.inl hfail
  have h := C4_releaseAll_every_record_in_order mgrMixed rtHeld
  obtain ⟨rt1, h1⟩ := h.2.2.2.1 hfl
  have h2 : mgrMixed.releaseAll rtHeld = some ({ m_arRequests := [] },
      { arrays := Function.update rtHeld.arrays 7 [1, 2, 3, 4], globalRefs := [], elems := [] }) := by
    rw [FSUIPCDataRequestManager.releaseAll_eq_flushSeq]
    simp only [mgrMixed, FSUIPCDataRequestManager.flushSeq,
      FSUIPCDataRequestManager.flushOne_of_failing _ _ hfail,
      FSUIPCDataRequestManager.flushOne_of_held recHeld rtHeld vmOk 1 1 7 [1, 2, 3, 4]
        rfl rfl rfl rfl rfl rfl]
    rfl
  refine ⟨hfl, hfail, _, h2, by simp, rfl, rfl, ?_⟩
  exact h.2.2.1 [] FSUIPCDataRequest.mk0 [recHeld] (by simp [mgrMixed]) hfail

/-! ## C1: read, then process -/

/-- C1: in every reachable state, if `read(aOffset, aSize, aData)` succeeds (returns a
non-zero status) then `aData` is a non-null array `obj`, the Registry has gained one record
whose pinned storage `p` holds a copy of the array, and a `process()` called next returns
and leaves the array `obj` holding, byte for byte, what the pinned storage `p` held after the
library's batched execution wrote into it, with the Registry empty. -/
theorem C1_read_then_process_syncs_buffer (s : Bridge) (hs : Reachable s)
    (aOffset aSize : Int) (aData : Option Nat) (granted : Bool) (lib : LibReply)
    (ret : Int) (s1 : Bridge)
    (h : FSUIPCWrapper_read s aOffset aSize aData granted lib = some (ret, s1))
    (hret : ret ≠ 0) (plib : LibReply) (writes : Nat → List jbyte → List jbyte) :
    ∃ obj r p buf s2,
      aData = some obj ∧ s1.pending = s.pending ++ [r] ∧ r.m_cData = some p ∧
      assoc p s1.rt.elems = some (s.rt.arrays obj) ∧
      assoc p (processWrites writes s1.rt).elems = some buf ∧
      buf = writeInto (s.rt.arrays obj) (writes p (s.rt.arrays obj)) ∧
      FSUIPCWrapper_process s1 plib writes = some (plib.ret, s2) ∧
      s2.rt.arrays obj = buf ∧ s2.pending = [] := by
  have hi1 : Inv s1 := inv_of_read s s1 (reachable_inv s hs) aOffset aSize aData granted lib ret h
  rcases read_cases s aOffset aSize aData granted lib with
    ⟨_, h1⟩ | ⟨vm, obj, _, _, _, _, _, h1⟩ | ⟨vm, obj, hvm, he, hj, _, _, h1⟩
  · rw [h1] at h; cases h; exact absurd rfl hret
  · rw [h1] at h; cases h; exact absurd rfl hret
  · rw [h1] at h
    simp only [Option.some.injEq, Prod.mk.injEq] at h
    obtain ⟨_, hs1⟩ := h
    obtain ⟨rt1, hflush, hproc⟩ := process_of_inv s1 hi1 plib writes
    have hpend : s1.pending = s.pending ++ [allocated s.cachedJVM s.rt] := by rw [← hs1]; rfl
    have hrt : s1.rt = s.rt.afterAlloc obj := by rw [← hs1]
    have hp1 : assoc (freshHandle (s.rt.elems.map Prod.fst)) s1.rt.elems =
        some (s.rt.arrays obj) := by
      rw [hrt]; exact assoc_cons_self _ _ _
    have hp2 : assoc (freshHandle (s.rt.elems.map Prod.fst)) (processWrites writes s1.rt).elems =
        some (writeInto (s.rt.arrays obj)
          (writes (freshHandle (s.rt.elems.map Prod.fst)) (s.rt.arrays obj))) := by
      rw [assoc_processWrites, hp1]; rfl
    have hg2 : assoc (freshHandle (s.rt.globalRefs.map Prod.fst))
        (processWrites writes s1.rt).globalRefs = some obj := by
      rw [hrt]; exact assoc_cons_self _ _ _
    have hall : ∀ x ∈ s.pending ++ allocated s.cachedJVM s.rt :: [],
        Held (processWrites writes s1.rt) x := by
      intro x hx
      exact held_processWrites writes s1.rt x (hi1.1 x (by rw [hpend]; exact hx))
    have hpw : (s.pending ++ allocated s.cachedJVM s.rt :: []).Pairwise Apart := by
      have := hi1.2; rw [hpend] at this; exact this
    obtain ⟨rta, rtb, rt2, _, _, _, _, htot, hfin⟩ :=
      flush_split (processWrites writes s1.rt) s.pending [] (allocated s.cachedJVM s.rt)
        hall hpw _ _ obj _ rfl rfl hg2 hp2
    rw [← hpend, hflush] at htot
    cases htot
    refine ⟨obj, allocated s.cachedJVM s.rt, _, _, _, hj, hpend, rfl, hp1, hp2, rfl, hproc, ?_,
      rfl⟩
    exact hfin (fun x hx => by cases hx)

/-- C1 on the scenario of the spec: `read(0x0200, 4, [0,0,0,0])`, the mock library delivers
1,2,3,4, `process()`; the buffer then holds 1,2,3,4 and the Registry is empty. -/
theorem C1_read_then_process_syncs_buffer_witness :
    Reachable bridgeZero ∧
    bridgeZero.rt.arrays 7 = [0, 0, 0, 0] ∧
    FSUIPCWrapper_read bridgeZero 0x0200 4 (some 7) true libOk = some (1, bridgeRead) ∧
    ∃ s2, FSUIPCWrapper_process bridgeRead libOk writes1234 = some (1, s2) ∧
      s2.rt.arrays 7 = [1, 2, 3, 4] ∧ s2.pending = [] := by
  have hr : Reachable bridgeZero := Reachable.init _ rfl
  have h : FSUIPCWrapper_read bridgeZero 0x0200 4 (some 7) true libOk = some (1, bridgeRead) :=
    rfl
  obtain ⟨obj, r, p, buf, s2, h1, h2, h3, _, h5, _, h7, h8, h9⟩ :=
    C1_read_then_process_syncs_buffer bridgeZero hr 0x0200 4 (some 7) true libOk 1 bridgeRead h
      (by decide) libOk writes1234
  cases h1
  have hrr : r = allocated (some vmOk) rtZero := by
    have : [allocated (some vmOk) rtZero] = [r] := h2
    exact (List.cons.inj this).1.symm
  subst hrr
  cases h3
  have hb : buf = [1, 2, 3, 4] := by
    have h5b : some ([1, 2, 3, 4] : List jbyte) = some buf := h5
    exact (Option.some.inj h5b).symm
  subst hb
  exact ⟨hr, rfl, h, s2, h7, h8, h9⟩

/-! ## C2: process -/

/-- C2: in every reachable state and for every reply of `FSUIPC_Process` (any status, zero
or not), `process()` returns exactly that status, leaves the Registry empty, and has
released every record that was pending: the runtime is the one the in-order flush of the
pending records leaves after the library wrote, and the global reference and the native
buffer of every record that was pending, live before the call, are no longer live. -/
theorem C2_process_returns_status_and_flushes (s : Bridge) (hs : Reachable s)
    (lib : LibReply) (writes : Nat → List jbyte → List jbyte) :
    ∃ s1, FSUIPCWrapper_process s lib writes = some (lib.ret, s1) ∧
      s1.pending = [] ∧
      FSUIPCDataRequestManager.flushSeq s.pending (processWrites writes s.rt) = some s1.rt ∧
      ∀ r ∈ s.pending, ∃ g p obj buf, r.m_oData = some g ∧ r.m_cData = some p ∧
        assoc g s.rt.globalRefs = some obj ∧ assoc p s.rt.elems = some buf ∧
        assoc g s1.rt.globalRefs = none ∧ assoc p s1.rt.elems = none := by
  have hi := reachable_inv s hs
  obtain ⟨rt1, hflush, hproc⟩ := process_of_inv s hi lib writes
  refine ⟨_, hproc, rfl, hflush, ?_⟩
  intro r hr
  obtain ⟨vm, g, p, o, buf, k1, k2, k3, k4, k5, k6⟩ := hi.1 r hr
  have hheld : ∀ x ∈ s.pending, Held (processWrites writes s.rt) x :=
    fun x hx => held_processWrites writes s.rt x (hi.1 x hx)
  have := FSUIPCDataRequestManager.flushSeq_released s.pending _ rt1
    (flushable_of_held _ _ hheld hi.2) hflush r hr (hheld r hr) g p k3 k4
  exact ⟨g, p, o, buf, k3, k4, k5, k6, this.1, this.2⟩

/-- C2 at a concrete state with one pending record, for a failing `FSUIPC_Process`. -/
theorem C2_process_returns_status_and_flushes_witness :
    Reachable bridgeRead ∧ bridgeRead.pending.length = 1 ∧
    ∃ s1, FSUIPCWrapper_process bridgeRead libFail writes1234 = some (0, s1) ∧
      s1.pending = [] ∧ assoc 1 bridgeRead.rt.globalRefs = some 7 ∧
      assoc 1 s1.rt.globalRefs = none := by
  have hr : Reachable bridgeRead :=
    Reachable.step bridgeZero bridgeRead (Call.read 0x0200 4 (some 7) true libOk)
      (Reachable.init _ rfl) rfl
  obtain ⟨s1, h1, h2, _, h4⟩ :=
    C2_process_returns_status_and_flushes bridgeRead hr libFail writes1234
  obtain ⟨g, p, obj, buf, k1, _, _, _, k5, _⟩ :=
    h4 (allocated (some vmOk) rtZero) (List.mem_singleton.mpr rfl)
  have hg : g = 1 := by
    have : some (1 : Nat) = some g := k1
    exact (Option.some.inj this).symm
  subst hg
  exact ⟨hr, rfl, s1, h1, h2, rfl, k5⟩

/-! ## C6: close -/

/-- C6: in every reachable state `close()` returns with the Registry empty, and every
record `r` that was pending has been synced: the records before it are flushed first, then
`release()` on `r` succeeds and leaves its array holding the contents of its pinned storage,
then the records after it are flushed; at the end of `close()` the array still holds these
contents unless a later pending record refers to the same array (in particular when `r` is
the only pending record). -/
theorem C6_close_flushes_pending (s : Bridge) (hs : Reachable s) :
    ∃ s1, FSUIPCWrapper_close s = some s1 ∧ s1.pending = [] ∧
      ∀ pre r post, s.pending = pre ++ r :: post →
        ∃ g p obj buf rta r1 rtb,
          r.m_oData = some g ∧ r.m_cData = some p ∧
          assoc g s.rt.globalRefs = some obj ∧ assoc p s.rt.elems = some buf ∧
          FSUIPCDataRequestManager.releaseAll { m_arRequests := pre } s.rt =
            some ({ m_arRequests := [] }, rta) ∧
          r.release rta = some (true, r1, rtb) ∧
          rtb.arrays obj = buf ∧
          FSUIPCDataRequestManager.releaseAll { m_arRequests := post } rtb =
            some ({ m_arRequests := [] }, s1.rt) ∧
          ((∀ x ∈ post, ∀ g1, x.m_oData = some g1 → assoc g1 s.rt.globalRefs ≠ some obj) →
            s1.rt.arrays obj = buf) := by
  have hi := reachable_inv s hs
  obtain ⟨rt1, hflush, hclose⟩ := close_of_inv s hi
  refine ⟨_, hclose, rfl, ?_⟩
  intro pre r post hsplit
  obtain ⟨vm, g, p, o, buf, k1, k2, k3, k4, k5, k6⟩ := hi.1 r (by rw [hsplit]; simp)
  have hall : ∀ x ∈ pre ++ r :: post, Held s.rt x := by
    intro x hx; exact hi.1 x (by rw [hsplit]; exact hx)
  have hpw : (pre ++ r :: post).Pairwise Apart := by
    have := hi.2; rw [hsplit] at this; exact this
  obtain ⟨rta, rtb, rt2, h1, h2, h3, h4, htot, hfin⟩ :=
    flush_split s.rt pre post r hall hpw g p o buf k3 k4 k5 k6
  rw [← hsplit, hflush] at htot
  cases htot
  refine ⟨g, p, o, buf, rta, _, rtb, k3, k4, k5, k6, ?_, h2, h3, ?_, hfin⟩
  · rw [FSUIPCDataRequestManager.releaseAll_eq_flushSeq]
    simp only [h1]; rfl
  · rw [FSUIPCDataRequestManager.releaseAll_eq_flushSeq]
    simp only [h4]; rfl

/-- C6 on the scenario of the spec: `close()` while one unflushed read record is pending,
its pinned storage holding 1,2,3,4 and its array still 0,0,0,0; after `close()` the array
holds 1,2,3,4 and the Registry is empty. -/
theorem C6_close_flushes_pending_witness :
    Reachable bridgeUnflushed ∧ bridgeUnflushed.pending = [allocated (some vmOk) rtZero] ∧
    bridgeUnflushed.rt.arrays 7 = [0, 0, 0, 0] ∧
    assoc 1 bridgeUnflushed.rt.elems = some [1, 2, 3, 4] ∧
    ∃ s1, FSUIPCWrapper_close bridgeUnflushed = some s1 ∧ s1.pending = [] ∧
      s1.rt.arrays 7 = [1, 2, 3, 4] := by
  have hr0 : Reachable bridgeRead :=
    Reachable.step bridgeZero bridgeRead (Call.read 0x0200 4 (some 7) true libOk)
      (Reachable.init _ rfl) rfl
  have hr : Reachable bridgeUnflushed :=
    Reachable.step bridgeRead bridgeUnflushed
      (Call.readData 0x0300 4 (some 8) true libOk libOk writes1234) hr0 rfl
  obtain ⟨s1, h1, h2, h3⟩ := C6_close_flushes_pending bridgeUnflushed hr
  obtain ⟨g, p, obj, buf, rta, r1, rtb, k1, k2, k3, k4, _, _, _, _, k9⟩ :=
    h3 [] (allocated (some vmOk) rtZero) [] rfl
  have hg : g = 1 := by
    have : some (1 : Nat) = some g := k1
    exact (Option.some.inj this).symm
  have hp : p = 1 := by
    have : some (1 : Nat) = some p := k2
    exact (Option.some.inj this).symm
  subst hg hp
  have ho : obj = 7 := by
    have : some (7 : Nat) = some obj := k3
    exact (Option.some.inj this).symm
  have hb : buf = [1, 2, 3, 4] := by
    have : some ([1, 2, 3, 4] : List jbyte) = some buf := k4
    exact (Option.some.inj this).symm
  subst ho hb
  exact ⟨hr, rfl, rfl, rfl, s1, h1, h2, k9 (fun x hx => by cases hx)⟩

/-! ## C8: every pending record is armed -/

/-- C8: in every state reachable from an empty Registry by boundary calls (`open`, `read`,
`write`, `readData`, `writeData`, `process`, `close`, with any outcomes of the pin and of the
library calls), every record of the pending sequence is armed: `m_oJavaVM`, `m_oData` and
`m_cData` are non-null, the `JavaVM` supplies the environment, the global reference is live
and the pinned buffer is live (it has not been released); and no two pending records share a
reference or a buffer. -/
theorem C8_pending_records_armed (s : Bridge) (hs : Reachable s) :
    (∀ r ∈ s.pending, r.armed ∧ Held s.rt r ∧
      ∃ g p, r.m_oData = some g ∧ r.m_cData = some p ∧
        (assoc g s.rt.globalRefs).isSome ∧ (assoc p s.rt.elems).isSome) ∧
    s.pending.Pairwise Apart := by
  have hi := reachable_inv s hs
  refine ⟨?_, hi.2⟩
  intro r hr
  have hh := hi.1 r hr
  obtain ⟨vm, g, p, o, buf, k1, k2, k3, k4, k5, k6⟩ := hh
  refine ⟨⟨by simp [k1], by simp [k3], by simp [k4]⟩, hi.1 r hr, g, p, k3, k4, ?_, ?_⟩
  · rw [k5]; rfl
  · rw [k6]; rfl

/-- C8 at a concrete reachable state: after one successful `read` the pending record is
armed. -/
theorem C8_pending_records_armed_witness :
    Reachable bridgeRead ∧ bridgeRead.pending = [allocated (some vmOk) rtZero] ∧
    (allocated (some vmOk) rtZero).armed := by
  have hr : Reachable bridgeRead :=
    Reachable.step bridgeZero bridgeRead (Call.read 0x0200 4 (some 7) true libOk)
      (Reachable.init _ rfl) rfl
  exact ⟨hr, rfl,
    ((C8_pending_records_armed bridgeRead hr).1 _ (List.mem_singleton.mpr rfl)).1⟩

/-! ## C3 and C9: a failed read or write -/

theorem processWrites_afterAlloc (writes : Nat → List jbyte → List jbyte) (rt : Runtime)
    (obj : Nat) :
    processWrites writes (rt.afterAlloc obj) =
      (processWrites writes rt).extend (freshHandle (rt.globalRefs.map Prod.fst), obj)
        (freshHandle (rt.elems.map Prod.fst),
          writeInto (rt.arrays obj) (writes (freshHandle (rt.elems.map Prod.fst)) (rt.arrays obj))) :=
  rfl

/-- A `process()` or `close()` that follows a read whose record was pinned but not stored
leaves every array exactly as it would had that read never been made. -/
theorem flush_blind_to_leak (s : Bridge) (hi : Inv s) (obj iRes : Nat) :
    (∀ (plib : LibReply) (writes : Nat → List jbyte → List jbyte), ∃ t1 t,
      FSUIPCWrapper_process { s with iResult := iRes, rt := s.rt.afterAlloc obj } plib writes =
        some (plib.ret, t1) ∧
      FSUIPCWrapper_process s plib writes = some (plib.ret, t) ∧
      t1.rt.arrays = t.rt.arrays) ∧
    (∃ t1 t,
      FSUIPCWrapper_close { s with iResult := iRes, rt := s.rt.afterAlloc obj } = some t1 ∧
      FSUIPCWrapper_close s = some t ∧ t1.rt.arrays = t.rt.arrays) := by
  have hi1 : Inv { s with iResult := iRes, rt := s.rt.afterAlloc obj } :=
    ⟨fun r hr => held_afterAlloc s.rt obj r (hi.1 r hr), hi.2⟩
  have hne := (leaked_afterAlloc s hi obj iRes).2.2
  constructor
  · intro plib writes
    obtain ⟨rta, ha, hpa⟩ := process_of_inv _ hi1 plib writes
    obtain ⟨rtb, hb, hpb⟩ := process_of_inv s hi plib writes
    refine ⟨_, _, hpa, hpb, ?_⟩
    have hx : FSUIPCDataRequestManager.flushSeq s.pending
        (processWrites writes (s.rt.afterAlloc obj)) = some rta := ha
    rw [processWrites_afterAlloc, FSUIPCDataRequestManager.flushSeq_extend _ _ _ _ hne, hb] at hx
    simp only [Option.map_some', Option.some.injEq] at hx
    rw [← hx]; rfl
  · obtain ⟨rta, ha, hpa⟩ := close_of_inv _ hi1
    obtain ⟨rtb, hb, hpb⟩ := close_of_inv s hi
    refine ⟨_, _, hpa, hpb, ?_⟩
    have hx : FSUIPCDataRequestManager.flushSeq s.pending
        ((s.rt).extend (freshHandle (s.rt.globalRefs.map Prod.fst), obj)
          (freshHandle (s.rt.elems.map Prod.fst), s.rt.arrays obj)) = some rta := ha
    rw [FSUIPCDataRequestManager.flushSeq_extend _ _ _ _ hne, hb] at hx
    simp only [Option.map_some', Option.some.injEq] at hx
    rw [← hx]; rfl

/-- C3: in every reachable state, if `read` or `write` fails (`alloc` fails, or `alloc`
succeeds and the library call returns 0), the call returns 0, the pending sequence is what
it was, and no array has changed. A `process()` or a `close()` called next leaves every
array as it would without the failed call; and after any sequence of later boundary calls
every native buffer the failed call pinned is still live and owned by no pending record, so
it has never been copied back. -/
theorem C3_failed_read_write_leaves_buffer (s : Bridge) (hs : Reachable s)
    (aOffset aSize : Int) (aData : Option Nat) (granted : Bool) (lib : LibReply)
    (hfail : (∃ r1 rt1, (FSUIPCDataRequest.mk_ s.cachedJVM).alloc aData granted s.rt =
        some (false, r1, rt1)) ∨ lib.ret = 0) :
    ∃ s1,
      FSUIPCWrapper_read s aOffset aSize aData granted lib = some (0, s1) ∧
      FSUIPCWrapper_write s aOffset aSize aData granted lib = some (0, s1) ∧
      s1.pending = s.pending ∧ s1.rt.arrays = s.rt.arrays ∧
      (∀ (plib : LibReply) (writes : Nat → List jbyte → List jbyte), ∃ t1 t,
        FSUIPCWrapper_process s1 plib writes = some (plib.ret, t1) ∧
        FSUIPCWrapper_process s plib writes = some (plib.ret, t) ∧
        t1.rt.arrays = t.rt.arrays) ∧
      (∃ t1 t, FSUIPCWrapper_close s1 = some t1 ∧ FSUIPCWrapper_close s = some t ∧
        t1.rt.arrays = t.rt.arrays) ∧
      (∀ cs s2, run s1 cs = some s2 → ∀ p, assoc p s.rt.elems = none →
        (assoc p s1.rt.elems).isSome →
        (assoc p s2.rt.elems).isSome ∧ ∀ r ∈ s2.pending, r.m_cData ≠ some p) := by
  have hi := reachable_inv s hs
  rw [write_eq_read]
  rcases read_cases s aOffset aSize aData granted lib with
    ⟨_, h1⟩ | ⟨vm, obj, _, _, _, _, _, h1⟩ | ⟨vm, obj, hvm, he, hj, hg, hl, h1⟩
  · refine ⟨s, h1, h1, rfl, rfl, ?_, ?_, ?_⟩
    · intro plib writes
      obtain ⟨rt1, _, hp⟩ := process_of_inv s hi plib writes
      exact ⟨_, _, hp, hp, rfl⟩
    · obtain ⟨rt1, _, hp⟩ := close_of_inv s hi
      exact ⟨_, _, hp, hp, rfl⟩
    · intro cs s2 _ p hn hsome
      rw [hn] at hsome; cases hsome
  · have hblind := flush_blind_to_leak s hi obj lib.result
    refine ⟨_, h1, h1, rfl, rfl, hblind.1, hblind.2, ?_⟩
    intro cs s2 hrun p hn hsome
    have hi1 : Inv { s with iResult := lib.result, rt := s.rt.afterAlloc obj } :=
      ⟨fun r hr => held_afterAlloc s.rt obj r (hi.1 r hr), hi.2⟩
    have hp : p = freshHandle (s.rt.elems.map Prod.fst) := by
      by_contra hne
      simp only [Runtime.afterAlloc] at hsome
      rw [assoc_cons_ne p _ _ _ (fun e => hne e.symm), hn] at hsome
      cases hsome
    subst hp
    have := leaked_run _ _ obj cs _ s2 hi1 (leaked_afterAlloc s hi obj lib.result) hrun
    exact ⟨this.2.1, fun r hr => (this.2.2 r hr).2⟩
  · exfalso
    rcases hfail with ⟨r1, rt1, ha⟩ | hz
    · rw [hj, hg, FSUIPCDataRequest.alloc_of_pin_granted _ obj s.rt vm hvm he] at ha
      simp only [Option.some.injEq, Prod.mk.injEq] at ha
      exact absurd ha.1 (by decide)
    · exact hl hz

/-- C3 at a concrete call: the pin succeeds and `FSUIPC_Read` returns 0; a later
`process()` and `close()` leave the array at 0,0,0,0 although the mock library writes
1,2,3,4 into every buffer, and the pinned buffer is still live afterwards. -/
theorem C3_failed_read_write_leaves_buffer_witness :
    Reachable bridgeZero ∧
    FSUIPCWrapper_read bridgeZero 0x0200 4 (some 7) true libFail = some (0, bridgeLeak) ∧
    bridgeLeak.pending = bridgeZero.pending ∧
    (∃ t1, FSUIPCWrapper_process bridgeLeak libOk writes1234 = some (1, t1) ∧
      t1.rt.arrays 7 = [0, 0, 0, 0]) ∧
    ∃ s2, run bridgeLeak [Call.process libOk writes1234, Call.close] = some s2 ∧
      (assoc 1 s2.rt.elems).isSome := by
  have hr : Reachable bridgeZero := Reachable.init _ rfl
  obtain ⟨s1, h1, _, h3, _, h5, _, h7⟩ :=
    C3_failed_read_write_leaves_buffer bridgeZero hr 0x0200 4 (some 7) true libFail (Or.inr rfl)
  have hs1 : s1 = bridgeLeak := by
    have : some ((0 : Int), bridgeLeak) = some (0, s1) := h1
    exact (Prod.mk.inj (Option.some.inj this)).2.symm
  subst hs1
  obtain ⟨t1, t, k1, k2, k3⟩ := h5 libOk writes1234
  have ht : t.rt.arrays 7 = [0, 0, 0, 0] := by
    have : FSUIPCWrapper_process bridgeZero libOk writes1234 =
        some (1, { bridgeZero with iResult := 0 }) := rfl
    rw [this] at k2
    cases k2
    rfl
  refine ⟨hr, h1, h3, ⟨t1, k1, by rw [k3]; exact ht⟩, ?_⟩
  have hrun : ∃ s2, run bridgeLeak [Call.process libOk writes1234, Call.close] = some s2 :=
    ⟨_, rfl⟩
  obtain ⟨s2, h2⟩ := hrun
  exact ⟨s2, h2, (h7 _ s2 h2 1 rfl rfl).1⟩

/-- C9: in every reachable state, when `alloc` succeeds and the library call of `read` or
`write` returns 0, the call returns 0 and the pinned record is neither stored nor released:
the pending sequence is what it was, there is exactly one more live global reference than
before the call, namely a reference to the caller array that was not live before, and after
any sequence of later boundary calls (`process()` and `close()` included) that reference is
still live and owned by no pending record. -/
theorem C9_failed_library_call_leaks_reference (s : Bridge) (hs : Reachable s)
    (aOffset aSize : Int) (aData : Option Nat) (granted : Bool) (lib : LibReply)
    (r1 : FSUIPCDataRequest) (rt1 : Runtime)
    (halloc : (FSUIPCDataRequest.mk_ s.cachedJVM).alloc aData granted s.rt =
      some (true, r1, rt1))
    (hlib : lib.ret = 0) :
    ∃ s1 g obj,
      FSUIPCWrapper_read s aOffset aSize aData granted lib = some (0, s1) ∧
      FSUIPCWrapper_write s aOffset aSize aData granted lib = some (0, s1) ∧
      s1.pending = s.pending ∧ s1.rt = rt1 ∧
      s1.rt.globalRefs.length = s.rt.globalRefs.length + 1 ∧
      aData = some obj ∧ r1.m_oData = some g ∧
      assoc g s.rt.globalRefs = none ∧ assoc g s1.rt.globalRefs = some obj ∧
      ∀ cs s2, run s1 cs = some s2 →
        assoc g s2.rt.globalRefs = some obj ∧ ∀ r ∈ s2.pending, r.m_oData ≠ some g := by
  have hi := reachable_inv s hs
  rw [write_eq_read]
  have hcontra : ∀ x, (FSUIPCDataRequest.mk_ s.cachedJVM).alloc aData granted s.rt =
      some (false, x) → False := by
    intro x hx
    rw [hx] at halloc
    simp only [Option.some.injEq, Prod.mk.injEq] at halloc
    exact absurd halloc.1 (by decide)
  rcases read_cases s aOffset aSize aData granted lib with
    ⟨hc, h1⟩ | ⟨vm, obj, hvm, he, hj, hg, _, h1⟩ | ⟨vm, obj, _, _, _, _, hl, _⟩
  · exfalso
    rcases hc with hc | ⟨vm, obj, hvm, he, hj, hg⟩
    · exact hcontra _ (FSUIPCDataRequest.alloc_of_precondition _ aData granted s.rt hc)
    · apply hcontra
      rw [hj, hg]
      exact FSUIPCDataRequest.alloc_of_pin_refused _ obj s.rt vm hvm he
  · rw [hj, hg, FSUIPCDataRequest.alloc_of_pin_granted _ obj s.rt vm hvm he] at halloc
    simp only [Option.some.injEq, Prod.mk.injEq, true_and] at halloc
    obtain ⟨hr1, hrt1⟩ := halloc
    have hi1 : Inv { s with iResult := lib.result, rt := s.rt.afterAlloc obj } :=
      ⟨fun r hr => held_afterAlloc s.rt obj r (hi.1 r hr), hi.2⟩
    refine ⟨_, freshHandle (s.rt.globalRefs.map Prod.fst), obj, h1, h1, rfl, hrt1, ?_, hj, ?_,
      assoc_fresh _, assoc_cons_self _ _ _, ?_⟩
    · simp [Runtime.afterAlloc]
    · rw [← hr1]
    · intro cs s2 hrun
      have := leaked_run _ _ obj cs _ s2 hi1 (leaked_afterAlloc s hi obj lib.result) hrun
      exact ⟨this.1, fun r hr => (this.2.2 r hr).1⟩
  · exact absurd hlib hl

/-- C9 at a concrete call: the pin succeeds, `FSUIPC_Read` returns 0; the reference taken
(handle 1, to array 7) is still live after a later `process()` and `close()`. -/
theorem C9_failed_library_call_leaks_reference_witness :
    Reachable bridgeZero ∧
    FSUIPCWrapper_read bridgeZero 0x0200 4 (some 7) true libFail = some (0, bridgeLeak) ∧
    bridgeZero.rt.globalRefs.length = 0 ∧ bridgeLeak.rt.globalRefs.length = 1 ∧
    ∃ s2, run bridgeLeak [Call.process libOk writes1234, Call.close] = some s2 ∧
      assoc 1 s2.rt.globalRefs = some 7 := by
  have hr : Reachable bridgeZero := Reachable.init _ rfl
  obtain ⟨s1, g, obj, h1, _, _, _, _, h6, h7, _, _, h10⟩ :=
    C9_failed_library_call_leaks_reference bridgeZero hr 0x0200 4 (some 7) true libFail
      (allocated (some vmOk) rtZero) (rtZero.afterAlloc 7) rfl rfl
  have hs1 : s1 = bridgeLeak := by
    have : some ((0 : Int), bridgeLeak) = some (0, s1) := h1
    exact (Prod.mk.inj (Option.some.inj this)).2.symm
  subst hs1
  cases h6
  have hg : g = 1 := by
    have : some (1 : Nat) = some g := h7
    exact (Option.some.inj this).symm
  subst hg
  have hrun : ∃ s2, run bridgeLeak [Call.process libOk writes1234, Call.close] = some s2 :=
    ⟨_, rfl⟩
  obtain ⟨s2, h2⟩ := hrun
  exact ⟨hr, h1, rfl, rfl, s2, h2, (h10 _ s2 h2).1⟩

/-! ## C10: readData and writeData -/

/-- C10: for every state, offsets and sizes, every non-null array `obj` and every reply of
the library, a `readData` or `writeData` whose pin is granted returns and leaves no deferred
state: the request manager (so the pending sequence: same records, same order) is
untouched, every record armed on live handles before the call still is, the live global
references are the same, the native buffers that are live after the call are those live
before it, and the buffer `p` the call pinned, not live before the call, is not live after
it, its contents (the copy of the array with the bytes the library wrote) having been
copied back into the array `obj`; no other array changes. The call has a defined result
only for a non-null array and a granted pin. -/
theorem C10_readData_writeData_bypass_registry (s : Bridge) (aOffset aSize : Int) (obj : Nat)
    (lib1 lib2 : LibReply) (writes : Nat → List jbyte → List jbyte) :
    ∃ ret s1 p rtp,
      FSUIPCWrapper_readData s aOffset aSize (some obj) true lib1 lib2 writes = some (ret, s1) ∧
      FSUIPCWrapper_writeData s aOffset aSize (some obj) true lib1 lib2 writes = some (ret, s1) ∧
      s1.oFSUIPCDataRequestManager = s.oFSUIPCDataRequestManager ∧
      s1.pending = s.pending ∧
      (∀ r, Held s.rt r → Held s1.rt r) ∧
      s1.rt.globalRefs = s.rt.globalRefs ∧
      s1.rt.elems.map Prod.fst = s.rt.elems.map Prod.fst ∧
      s.rt.GetByteArrayElements (.localRef obj) true = some (some p, rtp) ∧
      assoc p rtp.elems = some (s.rt.arrays obj) ∧
      assoc p s.rt.elems = none ∧ assoc p s1.rt.elems = none ∧
      s1.rt.arrays obj = writeInto (s.rt.arrays obj) (writes p (s.rt.arrays obj)) ∧
      (∀ o, o ≠ obj → s1.rt.arrays o = s.rt.arrays o) ∧
      (∀ aData granted,
        (FSUIPCWrapper_readData s aOffset aSize aData granted lib1 lib2 writes).isSome ↔
          (aData ≠ none ∧ granted = true)) := by
  have hkeys : (s.rt.afterSync obj writes).elems.map Prod.fst = s.rt.elems.map Prod.fst := by
    simp only [Runtime.afterSync, processWrites, List.map_map]
    rfl
  refine ⟨_, _, freshHandle (s.rt.elems.map Prod.fst), _,
    readData_of_pinned s aOffset aSize obj lib1 lib2 writes, ?_, rfl, rfl, ?_, rfl, hkeys, rfl,
    assoc_cons_self _ _ _, assoc_fresh _, ?_, ?_, ?_, ?_⟩
  · rw [writeData_eq_readData]
    exact readData_of_pinned s aOffset aSize obj lib1 lib2 writes
  · intro r hr
    exact held_afterSync writes s.rt obj r hr
  · apply assoc_eq_none_of_not_mem
    rw [hkeys]
    exact freshHandle_not_mem _
  · simp [Runtime.afterSync]
  · intro o ho
    simp [Runtime.afterSync, Function.update_noteq ho]
  · intro aData granted
    exact readData_defined_iff s aOffset aSize aData granted lib1 lib2 writes

/-! ## C11: addRequest -/

/-- C11: for every Registry state, `addRequest` with a null record leaves the manager (so
pending and its length) unchanged; with a non-null record `r`, pending becomes the old
sequence with `r` appended at the end: the length grows by exactly one, every earlier entry
keeps its index, the new last entry is `r`, and `r` is appended even when it is already
present (its number of occurrences grows by one: no deduplication). -/
theorem C11_addRequest_appends_non_null (m : FSUIPCDataRequestManager) :
    m.addRequest none = m ∧
    (m.addRequest none).m_arRequests.length = m.m_arRequests.length ∧
    ∀ r : FSUIPCDataRequest,
      (m.addRequest (some r)).m_arRequests = m.m_arRequests ++ [r] ∧
      (m.addRequest (some r)).m_arRequests.length = m.m_arRequests.length + 1 ∧
      (∀ i, i < m.m_arRequests.length →
        (m.addRequest (some r)).m_arRequests[i]? = m.m_arRequests[i]?) ∧
      (m.addRequest (some r)).m_arRequests[m.m_arRequests.length]? = some r ∧
      (m.addRequest (some r)).m_arRequests.count r = m.m_arRequests.count r + 1 := by
  refine ⟨rfl, rfl, ?_⟩
  intro r
  have h : (m.addRequest (some r)).m_arRequests = m.m_arRequests ++ [r] := rfl
  refine ⟨h, ?_, ?_, ?_, ?_⟩
  · rw [h]; simp
  · intro i hi
    rw [h, List.getElem?_append_left hi]
  · rw [h, List.getElem?_append_right (le_refl _)]; simp
  · rw [h]; simp

/-! ## C12: the offset and size of a registered record -/

/-- C12, as stated, fails on the scenario of the spec: the successful
`read(0x0200, 4, array 7)` registers a record whose `getOffset()` and `getSize()` are both 0,
not 0x0200 and 4. -/
theorem C12_registered_record_offset_counterexample :
    FSUIPCWrapper_read bridgeZero 0x0200 4 (some 7) true libOk = some (1, bridgeRead) ∧
    bridgeRead.pending = [allocated (some vmOk) rtZero] ∧
    (allocated (some vmOk) rtZero).getOffset = 0 ∧ toDWORD 0x0200 = 512 ∧
    (allocated (some vmOk) rtZero).getOffset ≠ toDWORD 0x0200 ∧
    (allocated (some vmOk) rtZero).getSize = 0 ∧ toDWORD 4 = 4 ∧
    (allocated (some vmOk) rtZero).getSize ≠ toDWORD 4 := by
  refine ⟨rfl, rfl, rfl, by decide, by decide, rfl, by decide, by decide⟩

/-- C12 (amended): for every state and every `read` or `write` that succeeds (returns a
non-zero status), exactly one record is appended to pending, and that record carries the
offset and size the constructor gave it at creation, which are 0 and 0 whatever `aOffset`
and `aSize` are: `getOffset()` and `getSize()` both return 0. The arguments only reach the
library call: for a given reply of the library the result of `read` and `write` (status and
state) is the same for every offset and size. -/
theorem C12_registered_record_keeps_constructor_zero (s : Bridge) (aOffset aSize : Int)
    (aData : Option Nat) (granted : Bool) (lib : LibReply) (ret : Int) (s1 : Bridge)
    (h : FSUIPCWrapper_read s aOffset aSize aData granted lib = some (ret, s1) ∨
      FSUIPCWrapper_write s aOffset aSize aData granted lib = some (ret, s1))
    (hret : ret ≠ 0) :
    (∃ r, s1.pending = s.pending ++ [r] ∧
      r.getOffset = (FSUIPCDataRequest.mk_ s.cachedJVM).getOffset ∧
      r.getSize = (FSUIPCDataRequest.mk_ s.cachedJVM).getSize ∧
      r.getOffset = 0 ∧ r.getSize = 0) ∧
    (∀ o n : Int,
      FSUIPCWrapper_read s o n aData granted lib =
        FSUIPCWrapper_read s aOffset aSize aData granted lib ∧
      FSUIPCWrapper_write s o n aData granted lib =
        FSUIPCWrapper_write s aOffset aSize aData granted lib) := by
  refine ⟨?_, fun o n => ⟨rfl, rfl⟩⟩
  rw [write_eq_read, or_self] at h
  rcases read_cases s aOffset aSize aData granted lib with
    ⟨_, h1⟩ | ⟨vm, obj, _, _, _, _, _, h1⟩ | ⟨vm, obj, _, _, _, _, _, h1⟩
  · rw [h1] at h; cases h; exact absurd rfl hret
  · rw [h1] at h; cases h; exact absurd rfl hret
  · rw [h1] at h
    simp only [Option.some.injEq, Prod.mk.injEq] at h
    obtain ⟨_, hs1⟩ := h
    refine ⟨allocated s.cachedJVM s.rt, ?_, rfl, rfl, rfl, rfl⟩
    rw [← hs1]; rfl

/-- C12 (amended) on the scenario of the spec: the record registered by
`read(0x0200, 4, array 7)` has offset 0 and size 0. -/
theorem C12_registered_record_keeps_constructor_zero_witness :
    FSUIPCWrapper_read bridgeZero 0x0200 4 (some 7) true libOk = some (1, bridgeRead) ∧
    ∃ r, bridgeRead.pending = bridgeZero.pending ++ [r] ∧ r.getOffset = 0 ∧ r.getSize = 0 := by
  have h : FSUIPCWrapper_read bridgeZero 0x0200 4 (some 7) true libOk = some (1, bridgeRead) :=
    rfl
  obtain ⟨⟨r, h1, _, _, h4, h5⟩, _⟩ :=
    C12_registered_record_keeps_constructor_zero bridgeZero 0x0200 4 (some 7) true libOk 1
      bridgeRead (Or.inl h) (by decide)
  exact ⟨h, r, h1, h4, h5⟩

/-! ## C13: the status of readData and writeData -/

/-- C13 evaluated on the code: `readData` and `writeData` return `1 & s1 & s2` (bitwise),
where `s1` is the status of `FSUIPC_Read`/`FSUIPC_Write` and `s2` that of `FSUIPC_Process`,
and `FSUIPC_Process` is issued whatever `s1` is (its result code and its writes are in the
state after the call). For statuses 0 and 1 the value is non-zero exactly when both are
non-zero. But when `FSUIPC_Read` returns the non-zero status 2 and `FSUIPC_Process`
returns 1, `readData` and `writeData` return 0, although neither call failed, while
`read` with the same status 2 reports success. -/
theorem C13_readData_status_is_bitwise_and :
    (∀ (s : Bridge) (aOffset aSize : Int) (obj : Nat) (lib1 lib2 : LibReply)
        (writes : Nat → List jbyte → List jbyte), ∃ s1,
      FSUIPCWrapper_readData s aOffset aSize (some obj) true lib1 lib2 writes =
        some (bitAnd (bitAnd 1 lib1.ret) lib2.ret, s1) ∧
      FSUIPCWrapper_writeData s aOffset aSize (some obj) true lib1 lib2 writes =
        some (bitAnd (bitAnd 1 lib1.ret) lib2.ret, s1) ∧
      s1.iResult = lib2.result ∧ s1.rt = s.rt.afterSync obj writes) ∧
    (∀ a b : Int, (a = 0 ∨ a = 1) → (b = 0 ∨ b = 1) →
      (bitAnd (bitAnd 1 a) b ≠ 0 ↔ (a ≠ 0 ∧ b ≠ 0))) ∧
    libTwo.ret ≠ 0 ∧ libOk.ret ≠ 0 ∧
    (∃ s1, FSUIPCWrapper_readData bridgeZero 0x0200 4 (some 7) true libTwo libOk writes1234 =
      some (0, s1)) ∧
    (∃ s1, FSUIPCWrapper_writeData bridgeZero 0x0200 4 (some 7) true libTwo libOk writes1234 =
      some (0, s1)) ∧
    (∃ s1, FSUIPCWrapper_read bridgeZero 0x0200 4 (some 7) true libTwo = some (2, s1) ∧
      s1.pending.length = 1) := by
  refine ⟨?_, ?_, by decide, by decide, ⟨_, rfl⟩, ⟨_, rfl⟩, ⟨_, rfl, rfl⟩⟩
  · intro s aOffset aSize obj lib1 lib2 writes
    refine ⟨_, readData_of_pinned s aOffset aSize obj lib1 lib2 writes, ?_, rfl, rfl⟩
    rw [writeData_eq_readData]
    exact readData_of_pinned s aOffset aSize obj lib1 lib2 writes
  · intro a b ha hb
    rcases ha with rfl | rfl <;> rcases hb with rfl | rfl <;> decide

end FSUIPC
